import Mathlib

/-!
Verification of the beniget def-use chain analyzer (src/beniget/beniget.py)
against its natural-language specification.

The Python source is shallowly embedded: each relevant routine of
beniget.py is translated into an executable Lean function over explicit
state values.  Python dicts keyed by strings or by node identity become
insertion-ordered association lists, Python object identity of Def records
becomes an index into an arena list, and Python negative indices / slices
are translated through explicit helpers with Python semantics.
-/

namespace Beniget

/-! ## Python list indexing helpers

Python `l[i]` accepts negative indices counting from the end, and slices
clamp out-of-range bounds instead of failing. -/

/-- Translate a Python index (possibly negative) on a list of length `n`
into a Nat position.  Negative values count from the end; the result is
clamped at 0 exactly like `Int.toNat` does. -/
def pyIdx (n : Nat) (i : Int) : Nat :=
  if i < 0 then ((n : Int) + i).toNat else i.toNat

/-- Translate a Python slice bound (possibly negative) on a list of
length `n`, clamping into `[0, n]` as Python slices do. -/
def pySliceIdx (n : Nat) (i : Int) : Nat :=
  if i < 0 then ((n : Int) + i).toNat else min i.toNat n

/-- Python slice `l[a:b]` with integer (possibly negative) bounds. -/
def pySlice {α : Type} (l : List α) (a b : Int) : List α :=
  (l.take (pySliceIdx l.length b)).drop (pySliceIdx l.length a)

/-- Python `l[a:]` with an integer (possibly negative) bound. -/
def pySliceFrom {α : Type} (l : List α) (a : Int) : List α :=
  l.drop (pySliceIdx l.length a)

/-- Split a character list at every occurrence of `c`; the result is
never empty (splitting the empty list yields `[[]]`). -/
def splitOnChar (c : Char) : List Char → List (List Char)
  | [] => [[]]
  | x :: rest =>
    match splitOnChar c rest with
    | [] => [[x]]
    | hd :: tl => if x = c then [] :: hd :: tl else (x :: hd) :: tl

/-- Python `str.split(".")`: note that splitting the empty string yields
`[""]`. -/
def pySplitDot (s : String) : List String :=
  (splitOnChar '.' s.data).map (fun cs => String.mk cs)

/-! ## The ordered set of Def handles

Modelled from the spec: the file `beniget/ordered_set.py` (imported by
`beniget.py` as `from .ordered_set import ordered_set`) is not part of the
sources under review; spec section 4.A describes it as a deterministic
insertion-ordered set whose duplicates collapse by identity, with
insertion-order iteration, union and membership.  Def handles are arena
indices here, so the container is a duplicate-free `List Nat`. -/

/-- Ordered-set insertion: append if not already present. -/
def oadd (l : List Nat) (x : Nat) : List Nat :=
  if x ∈ l then l else l ++ [x]

/-- Ordered-set union: insert the elements of `l2` in order into `l1`. -/
def ounion (l1 l2 : List Nat) : List Nat :=
  l2.foldl oadd l1

/-- Ordered set built from an iterable: first occurrences survive. -/
def odedup (l : List Nat) : List Nat :=
  ounion [] l

/-! ## Import resolver (beniget.py lines 83-174) -/

/-- `ImportInfo` (beniget.py line 83): resolved origin module and name of
the locally bound alias.  `orgname = none` models Python `None`. -/
structure ImportInfo where
  orgmodule : String
  orgname : Option String
deriving DecidableEq, Repr

/-- `ImportInfo.target` (beniget.py lines 100-107): `if self.orgname:` is
Python truthiness, so both `None` and the empty string take the else
branch. -/
def ImportInfo.target (i : ImportInfo) : String :=
  match i.orgname with
  | some n => if n = "" then i.orgmodule else i.orgmodule ++ "." ++ n
  | none => i.orgmodule

/-- An `ast.alias` node: imported name and optional local alias. -/
structure PyAlias where
  name : String
  asname : Option String
deriving DecidableEq, Repr

/-- An `ast.ImportFrom` node: optional source module, aliases, and the
relative-import level. -/
structure ImportFromNode where
  module : Option String
  names : List PyAlias
  level : Nat
deriving DecidableEq, Repr

/-- The `ImportFrom` branch of `parse_import` (beniget.py lines 136-169),
returning the alias-to-`ImportInfo` mapping in alias order. -/
def parse_import_from (node : ImportFromNode) (modname : String)
    (is_package : Bool) : List (PyAlias × ImportInfo) :=
  let current_module := pySplitDot modname
  let module := match node.module with
    | none => []
    | some m => pySplitDot m
  let source_module :=
    if node.level = 0 then module
    else
      let relative_module :=
        if node.level = 1 then
          if is_package then current_module
          else pySlice current_module 0 (-1)
        else
          if is_package then pySlice current_module 0 (1 - (node.level : Int))
          else pySlice current_module 0 (-(node.level : Int))
      let relative_module :=
        if relative_module = [] then List.replicate node.level ""
        else relative_module
      relative_module ++ module
  node.names.map (fun al =>
    (al, ⟨String.intercalate "." source_module, some al.name⟩))

/-- Spec-side description of the relative-import rule, used to compare
`parse_import_from` with the words of the spec: drop the last `k-1`
components when the module is a package and the last `k` otherwise, and
pad with `k` empty components instead of erroring when nothing is left. -/
def specRelativeOrigin (modname : String) (is_package : Bool) (k : Nat)
    (module : List String) : String :=
  let current := pySplitDot modname
  let kept := current.take (current.length - (if is_package then k - 1 else k))
  let padded := if kept = [] then List.replicate k "" else kept
  String.intercalate "." (padded ++ module)

/-! ## Annotation-name lookup (beniget.py lines 1985-2084) -/

/-- Kinds of AST nodes that can open a scope, as discriminated by
`type(node).__name__` in the source.  `Def695` stands for the synthetic
`def695` wrapper class (beniget.py line 387). -/
inductive ScopeKind where
  | Module
  | ClassDef
  | FunctionDef
  | AsyncFunctionDef
  | Lambda
  | DictComp
  | ListComp
  | SetComp
  | GeneratorExp
  | Def695
deriving DecidableEq, Repr

/-- A scope node: Python object identity is modelled by `sid`. -/
structure ScopeNode where
  sid : Nat
  kind : ScopeKind
deriving DecidableEq, Repr

/-- Membership in `_Comp` (beniget.py line 12). -/
def isCompKind (k : ScopeKind) : Bool :=
  match k with
  | .DictComp | .ListComp | .SetComp | .GeneratorExp => true
  | _ => false

/-- Membership in `_ClosedScopes` (beniget.py lines 13-15). -/
def isClosedScope (k : ScopeKind) : Bool :=
  match k with
  | .FunctionDef | .AsyncFunctionDef | .Lambda | .DictComp | .ListComp
  | .SetComp | .GeneratorExp | .Def695 => true
  | _ => false

/-- A local Def as seen by the annotation lookup: only `Def.name()` and
`Def.islive` are consulted (beniget.py line 2078); `tag` models object
identity so distinct Defs with equal names can be told apart. -/
structure ALocal where
  tag : Nat
  lname : String
  islive : Bool
deriving DecidableEq, Repr

/-- Model of the Python builtins environment `BuiltinsSrc =
builtins.__dict__` (beniget.py line 274).  This is external interface
data, not repository code; the list is a representative restriction and
every theorem below is parametric in its exact contents. -/
def builtinNamesList : List String :=
  ["abs", "all", "any", "bool", "bytes", "callable", "chr", "dict",
   "divmod", "enumerate", "filter", "float", "format", "frozenset",
   "getattr", "hasattr", "hash", "id", "int", "isinstance", "issubclass",
   "iter", "len", "list", "map", "max", "min", "next", "object", "open",
   "ord", "pow", "print", "range", "repr", "reversed", "round", "set",
   "setattr", "slice", "sorted", "str", "sum", "tuple", "type", "vars",
   "zip", "Exception", "ValueError", "TypeError", "None", "True", "False"]

/-- Outcomes of `lookup_annotation_name_defs`: the source raises
`ValueError` for an empty heads list (beniget.py line 2058) and
`LookupError` with three distinguishable messages otherwise (beniget.py
lines 2038-2046).  The constructors stand for those messages; the
non-constant message parts that only echo the inputs are dropped. -/
inductive AnnErr where
  | valueErrEmptyHeads
  | isBuiltin (name : String)
  | killed (name : String)
  | notFound (name : String)
deriving DecidableEq, Repr

/-- Decidable equality of `Except` outcomes, so that concrete lookup
results can be checked by evaluation. -/
instance {ε α : Type} [DecidableEq ε] [DecidableEq α] :
    DecidableEq (Except ε α) := fun a b =>
  match a, b with
  | .ok x, .ok y =>
    if h : x = y then isTrue (by rw [h])
    else isFalse (fun hc => h (by injection hc))
  | .error x, .error y =>
    if h : x = y then isTrue (by rw [h])
    else isFalse (fun hc => h (by injection hc))
  | .ok _, .error _ => isFalse (fun hc => by cases hc)
  | .error _, .ok _ => isFalse (fun hc => by cases hc)

/-- `_get_lookup_scopes` (beniget.py lines 2048-2072): strip the scopes
the lookup can never consult, keeping the global scope, the closed
enclosing scopes, and the direct scope (plus the class scope enclosing a
`def695` direct scope). -/
def get_lookup_scopes (heads : List ScopeNode) :
    Except AnnErr (List ScopeNode) :=
  match heads.getLast? with
  | none => .error .valueErrEmptyHeads
  | some direct =>
    match heads.dropLast with
    | [] => .ok [direct]
    | global_scope :: rest =>
      match rest.getLast? with
      | some c =>
        if direct.kind = .Def695 ∧ c.kind = .ClassDef then
          .ok (global_scope ::
               (rest.dropLast.filter (fun s => isClosedScope s.kind))
               ++ [c, direct])
        else
          .ok (global_scope ::
               (rest.filter (fun s => isClosedScope s.kind)) ++ [direct])
      | none =>
        .ok (global_scope ::
             (rest.filter (fun s => isClosedScope s.kind)) ++ [direct])

/-- The scope-list reordering at the top of `lookup_annotation_name_defs`
(beniget.py lines 2026-2034): when more than one scope survives and the
direct scope is not a `def695` scope, `scopes.append(scopes.pop(0))`
moves the module scope to the last position of the list. -/
def annotation_search_scopes (heads : List ScopeNode) :
    Except AnnErr (List ScopeNode) :=
  match get_lookup_scopes heads with
  | .error e => .error e
  | .ok scopes =>
    if scopes.length > 1 ∧
       ¬ (scopes.getLastD ⟨0, .Module⟩).kind = .Def695 then
      .ok (scopes.drop 1 ++ scopes.take 1)
    else
      .ok scopes

/-- The live-and-name filter of `_lookup` (beniget.py lines 2077-2079). -/
def scopeMatches (lm : ScopeNode → List ALocal) (name : String)
    (only_live : Bool) (s : ScopeNode) : List ALocal :=
  (lm s).filter (fun loc => loc.lname = name ∧ (only_live → loc.islive))

/-- The recursion of `_lookup` (beniget.py lines 2074-2084) over the
scope list reversed, so that the head is `scopes[-1]`, the scope the
source examines first.  When the matching locals are empty and scopes
remain, the source recurses with `only_live` back at its default `True`:
the relaxed flag applies to the first examined scope only. -/
def lookupRevGo (name : String) (lm : ScopeNode → List ALocal) :
    Bool → List ScopeNode → Except Unit (List ALocal)
  | _, [] => .error ()
  | only_live, context :: rest =>
    let defs := scopeMatches lm name only_live context
    if defs ≠ [] then .ok defs
    else if rest = [] then .error ()
    else lookupRevGo name lm true rest

/-- `_lookup` (beniget.py lines 2074-2084): examine `scopes[-1]`, return
its matching locals if any, otherwise recurse on `scopes[:-1]`. -/
def lookupScopes (name : String) (lm : ScopeNode → List ALocal)
    (only_live : Bool) (scopes : List ScopeNode) :
    Except Unit (List ALocal) :=
  lookupRevGo name lm only_live scopes.reverse

/-- `lookup_annotation_name_defs` (beniget.py lines 1985-2046): reorder
the scopes, try the live lookup, and on failure report a builtin, a
killed definition found by the relaxed retry, or a plain failure. -/
def lookup_annotation_name_defs (name : String) (heads : List ScopeNode)
    (lm : ScopeNode → List ALocal) : Except AnnErr (List ALocal) :=
  match annotation_search_scopes heads with
  | .error e => .error e
  | .ok scopes =>
    match lookupScopes name lm true scopes with
    | .ok defs => .ok defs
    | .error _ =>
      if name ∈ builtinNamesList then .error (.isBuiltin name)
      else
        match lookupScopes name lm false scopes with
        | .error _ => .error (.notFound name)
        | .ok _ => .error (.killed name)

/-- Spec-side first-match search used to compare the implemented lookup
with the spec words: scan the given scope order and return the live
matching locals of the first scope that has any. -/
def firstLiveMatch (name : String) (lm : ScopeNode → List ALocal) :
    List ScopeNode → Except Unit (List ALocal)
  | [] => .error ()
  | s :: rest =>
    let defs := scopeMatches lm name true s
    if defs ≠ [] then .ok defs else firstLiveMatch name lm rest

/-! ## The DefUseChains scope and definition engine

The analyzer state (`DefUseChains.__init__`, beniget.py lines 584-626)
is a set of parallel stacks plus the chains table.  `Def` objects
(beniget.py lines 193-244) are mutable and compared by identity, so they
live in an arena indexed by `Nat`; a node is either a genuine AST node
(`isinstance(d.node, _ast.AST)` holds) or an opaque builtin sentinel. -/

/-- The node wrapped by a `Def`: a real AST node identified by `id`, or
the non-AST sentinel stored for builtins (beniget.py line 585). -/
inductive PyNode where
  | ast (id : Nat)
  | sentinel (name : String)
deriving DecidableEq, Repr

/-- One `Def` record (beniget.py line 193): wrapped node, ordered set of
user Defs (arena indices), and the `islive` flag. -/
structure DefRec where
  node : PyNode
  users : List Nat
  islive : Bool
deriving DecidableEq, Repr

/-- `isinstance(d.node, _ast.AST)` (beniget.py line 919). -/
def PyNode.isAst (n : PyNode) : Bool :=
  match n with
  | .ast _ => true
  | .sentinel _ => false

/-- One frame of the definitions stack: an insertion-ordered dict from
names to ordered sets of Def handles (`defaultdict(ordered_set)`). -/
abbrev Frame := List (String × List Nat)

/-- Dict lookup with the `defaultdict` / `dict.get(name, ())` default. -/
def frameGet (f : Frame) (name : String) : List Nat :=
  match f.find? (fun p => p.1 = name) with
  | some p => p.2
  | none => []

/-- Python `name in defs` on a frame. -/
def frameHas (f : Frame) (name : String) : Bool :=
  (f.find? (fun p => p.1 = name)).isSome

/-- Dict assignment `f[name] = v`: overwrite in place, or append a new
key in insertion order. -/
def frameSet (f : Frame) (name : String) (v : List Nat) : Frame :=
  if frameHas f name then
    f.map (fun p => if p.1 = name then (p.1, v) else p)
  else f ++ [(name, v)]

/-- The full analyzer state.  Stacks grow to the right: the last element
is the Python `[-1]` top.  `localsMap` is `self.locals` keyed by scope
node identity, `moduleSid` is `self.module`, and `warnings` collects the
messages passed to `self.warn` (the location suffix is dropped). -/
structure DUC where
  arena : List DefRec
  chains : List (Nat × Nat)
  definitions : List Frame
  scope_depths : List Int
  scopes : List ScopeNode
  globalsStack : List (List String)
  precomputed_locals : List (List String)
  localsMap : List (Nat × List Nat)
  undefs : List (List (String × Nat × List Nat))
  moduleSid : Nat
  deadcode : Nat
  warnings : List String
deriving DecidableEq, Repr

/-- `self.warn(msg, node)` (beniget.py line 673), message text only. -/
def warn (st : DUC) (msg : String) : DUC :=
  { st with warnings := st.warnings ++ [msg] }

/-- Set the `islive` flag of arena entry `i` (no-op out of range). -/
def setLive (arena : List DefRec) (i : Nat) (b : Bool) : List DefRec :=
  match arena[i]? with
  | some d => arena.set i ⟨d.node, d.users, b⟩
  | none => arena

/-- Whether arena entry `i` wraps a genuine AST node. -/
def isAstDef (arena : List DefRec) (i : Nat) : Bool :=
  match arena[i]? with
  | some d => d.node.isAst
  | none => false

/-- `Def.add_user` (beniget.py lines 211-213): ordered-set insertion of
`u` into the user list of arena entry `i`. -/
def addUser (arena : List DefRec) (i u : Nat) : List DefRec :=
  match arena[i]? with
  | some d => arena.set i ⟨d.node, oadd d.users u, d.islive⟩
  | none => arena

/-- `self.chains.setdefault(node, Def(node))`: reuse the existing chain
Def for the node, or allocate a fresh live Def in the arena and register
it.  Returns the updated state and the Def handle. -/
def chainsSetdefault (st : DUC) (nodeId : Nat) : DUC × Nat :=
  match st.chains.find? (fun p => p.1 = nodeId) with
  | some p => (st, p.2)
  | none =>
    ({ st with
        arena := st.arena ++ [⟨.ast nodeId, [], true⟩],
        chains := st.chains ++ [(nodeId, st.arena.length)] },
     st.arena.length)

/-- Plain dict assignment `self.chains[node] = dnode`. -/
def chainsAssign (st : DUC) (nodeId : Nat) (d : Nat) : DUC :=
  if (st.chains.find? (fun p => p.1 = nodeId)).isSome then
    { st with chains :=
        st.chains.map (fun p => if p.1 = nodeId then (p.1, d) else p) }
  else { st with chains := st.chains ++ [(nodeId, d)] }

/-- `self.locals[scope-sid]` with the `defaultdict(list)` default. -/
def localsGet (m : List (Nat × List Nat)) (sid : Nat) : List Nat :=
  match m.find? (fun p => p.1 = sid) with
  | some p => p.2
  | none => []

/-- Assignment into `self.locals[scope-sid]`. -/
def localsSet (m : List (Nat × List Nat)) (sid : Nat) (v : List Nat) :
    List (Nat × List Nat) :=
  if (m.find? (fun p => p.1 = sid)).isSome then
    m.map (fun p => if p.1 = sid then (p.1, v) else p)
  else m ++ [(sid, v)]

/-- One iteration of the kill loop in `set_definition` (beniget.py lines
918-930): skip non-AST builtin sentinels, skip Defs present among the
new Defs or under the same name in a frame of `self._definitions[:index]`
(the `earlier` frames), and mark everything else as killed. -/
def killStep (name : String) (dnodes : List Nat) (earlier : List Frame)
    (ar : List DefRec) (d : Nat) : List DefRec :=
  if isAstDef ar d = false then ar
  else if d ∈ dnodes ∨ earlier.any (fun defs => d ∈ frameGet defs name)
    then ar
  else setLive ar d false

/-- `set_definition` (beniget.py lines 908-932): replace
`definitions[index][name]` with the ordered set of `dnodesIn`, after
running the kill loop over the prior Defs recorded there.  Dead code
skips everything. -/
def set_definition (st : DUC) (name : String) (dnodesIn : List Nat)
    (index : Int) : DUC :=
  if st.deadcode ≠ 0 then st
  else
    let dnodes := odedup dnodesIn
    let i := pyIdx st.definitions.length index
    let frame := st.definitions.getD i []
    let earlier := st.definitions.take i
    let prior := frameGet frame name
    let arena' := prior.foldl (killStep name dnodes earlier) st.arena
    { st with
        arena := arena',
        definitions := st.definitions.set i (frameSet frame name dnodes) }

/-- `add_to_definition` (beniget.py lines 934-939) on one frame:
ordered-set update of the entry for `name`. -/
def add_to_definition (f : Frame) (name : String) (dnodes : List Nat) :
    Frame :=
  frameSet f name (ounion (frameGet f name) dnodes)

/-- `extend_definition` (beniget.py lines 941-945): union into the top
frame, skipped in dead code. -/
def extend_definition (st : DUC) (name : String) (dnodes : List Nat) :
    DUC :=
  if st.deadcode ≠ 0 then st
  else
    let n := st.definitions.length
    let defs' := st.definitions.set (n - 1)
      (add_to_definition (st.definitions.getD (n - 1) []) name dnodes)
    { st with definitions := defs' }

/-- `set_or_extend_global` (beniget.py lines 961-966): route the Def to
frame 0, registering it as a module local when the name is new there. -/
def set_or_extend_global (st : DUC) (name : String) (dnode : Nat) : DUC :=
  if st.deadcode ≠ 0 then st
  else
    let lm' := localsSet st.localsMap st.moduleSid
                 (localsGet st.localsMap st.moduleSid ++ [dnode])
    let st :=
      if frameHas (st.definitions.getD 0 []) name then st
      else { st with localsMap := lm' }
    let defs' := st.definitions.set 0
      (add_to_definition (st.definitions.getD 0 []) name [dnode])
    { st with definitions := defs' }

/-- The loop of `_first_non_comprehension_scope` (beniget.py lines
1745-1751), walking `self._scopes` upward from index `-1`. -/
def fncsGo : List ScopeNode → Int → Option (Int × ScopeNode)
  | [], _ => none
  | s :: rest, i =>
    if isCompKind s.kind then fncsGo rest (i - 1) else some (i, s)

/-- `_first_non_comprehension_scope`: the negative index and node of the
innermost enclosing scope that is not a comprehension.  `none` models the
`IndexError` Python would raise if every scope were a comprehension
(impossible in practice: the bottom scope is the module). -/
def first_non_comprehension_scope (scopes : List ScopeNode) :
    Option (Int × ScopeNode) :=
  fncsGo scopes.reverse (-1)

/-- The installation block of the `Store`/`Param` branch of `visit_Name`
(beniget.py lines 1772-1774): `set_definition` at the computed index,
then append the Def to the locals of the scope at the same index when it
is not recorded there yet. -/
def visit_Name_store_install (st0 : DUC) (dnode : Nat) (name : String)
    (index : Int) : DUC :=
  let st := set_definition st0 name [dnode] index
  let scAt := st.scopes.getD (pyIdx st.scopes.length index) ⟨0, .Module⟩
  let lm' := localsSet st.localsMap scAt.sid
               (localsGet st.localsMap scAt.sid ++ [dnode])
  if dnode ∈ localsGet st.localsMap scAt.sid then st
  else { st with localsMap := lm' }

/-- The `Store`/`Param` branch of `visit_Name` (beniget.py lines
1753-1774) for a bare target Name (no pending annotation attribute).
Returns `none` only on the stack underflows that would raise in Python.
The result carries the new state and the Def handle of the target. -/
def visit_Name_store (st0 : DUC) (nodeId : Nat) (name : String)
    (named_expr : Bool) : Option (DUC × Nat) :=
  let r := chainsSetdefault st0 nodeId
  let st := r.1
  let dnode := r.2
  if st.globalsStack.any (fun g => name ∈ g) then
    some (set_or_extend_global st name dnode, dnode)
  else
    let fncs :=
      if named_expr then first_non_comprehension_scope st.scopes
      else
        match st.scopes.getLast? with
        | some s => some (-1, s)
        | none => none
    match fncs with
    | none => none
    | some (index, enclosing_scope) =>
      if index < -1 ∧ enclosing_scope.kind = .ClassDef then
        some (warn st ("assignment expression within a comprehension " ++
                       "cannot be used in a class body"), dnode)
      else
        some (visit_Name_store_install st dnode name index, dnode)

/-- `invalid_name_lookup` (beniget.py lines 676-702), with the Python
`None`/bool return collapsed to its truthiness. -/
def invalid_name_lookup (st : DUC) (name : String) (scope : ScopeNode)
    (precomputed : List String) (local_defs : List Frame) : Bool :=
  if name ∉ precomputed then false
  else
    let islocal := local_defs.any (fun defs =>
      frameHas defs name ∨ frameHas defs "*")
    if scope.kind = .ClassDef ∨ scope.kind = .Def695 then
      let top_level_definitions :=
        pySlice st.definitions 0 (-(st.scope_depths.getD 0 (-1)))
      let isglobal := top_level_definitions.any (fun f =>
        frameHas f name ∨ frameHas f "*")
      ¬ islocal ∧ ¬ isglobal
    else ¬ islocal

/-- One step of the scope loop inside `compute_defs` (beniget.py lines
747-758).  The accumulator holds the frames (or `none` for the
`StopIteration` sentinel) gathered so far, the running `lvl` offset, and
whether the loop has hit `break`. -/
def computeDefsStep (st : DUC) (name : String) (base_scope : ScopeNode)
    (is695 : Bool) (acc : List (Option Frame) × Int × Bool)
    (t : ScopeNode × Int × List String) : List (Option Frame) × Int × Bool :=
  let looked := acc.1
  let lvl := acc.2.1
  let stopped := acc.2.2
  let scope := t.1
  let depth := t.2.1
  let precomputed := t.2.2
  if stopped then acc
  else if ¬ scope.kind = .ClassDef ∨ is695 then
    let defs := pySlice st.definitions (lvl + depth) lvl
    if invalid_name_lookup st name base_scope precomputed defs then
      (looked ++ [none], lvl, true)
    else (looked ++ defs.reverse.map some, lvl + depth, false)
  else (looked, lvl + depth, false)

/-- The `looked_up_definitions` list built by the non-global branch of
`compute_defs` (beniget.py lines 730-758). -/
def computeLookedUp (st : DUC) (name : String) : List (Option Frame) :=
  match st.scope_depths.getLast?, st.scopes.getLast?,
        st.precomputed_locals.getLast? with
  | some depth, some base_scope, some precomputed =>
    let defs := pySliceFrom st.definitions depth
    let is695 := base_scope.kind = .Def695
    if invalid_name_lookup st name base_scope precomputed defs then []
    else
      let rest := (st.scopes.dropLast.reverse).zip
        ((st.scope_depths.dropLast.reverse).zip
          (st.precomputed_locals.dropLast.reverse))
      let start : List (Option Frame) × Int × Bool :=
        (defs.reverse.map some, depth, false)
      (rest.foldl (computeDefsStep st name base_scope is695) start).1
  | _, _, _ => []

/-- The scan over `looked_up_definitions` (beniget.py lines 760-766):
return the Defs for `name` from the first frame that binds it, prefixed
by the wildcard-import Defs gathered on the way; a `none` entry is the
`StopIteration` sentinel and stops the scan.  The second component is the
final `stars` list when no frame binds the name. -/
def scanLookedUp (name : String) (acc : List Nat) :
    List (Option Frame) → Option (List Nat) × List Nat
  | [] => (none, acc)
  | none :: _ => (none, acc)
  | some defs :: rest =>
    if frameHas defs name then
      (some (if acc = [] then frameGet defs name
             else acc ++ frameGet defs name), acc)
    else if frameHas defs "*" then
      scanLookedUp name (acc ++ frameGet defs "*") rest
    else scanLookedUp name acc rest

/-- `compute_defs` (beniget.py lines 715-778): resolve the Load of
`name` at AST node `nodeId`, returning the updated state and the list of
reaching Def handles.  Unresolved reads allocate a placeholder Def, feed
the innermost undef buffer when one is open, and emit the
unbound-identifier warning otherwise. -/
def compute_defs (st0 : DUC) (nodeId : Nat) (name : String)
    (quiet : Bool) : DUC × List Nat :=
  let lookedUp : List (Option Frame) :=
    if st0.globalsStack.any (fun g => name ∈ g) then
      (pySlice st0.definitions 0 (-(st0.scope_depths.getD 0 (-1)))).map some
    else computeLookedUp st0 name
  match scanLookedUp name [] lookedUp with
  | (some res, _) => (st0, res)
  | (none, stars) =>
    let r := chainsSetdefault st0 nodeId
    let st1 := r.1
    let d := r.2
    let st2 :=
      match st1.undefs.getLast? with
      | some top =>
        { st1 with undefs := st1.undefs.dropLast ++ [top ++ [(name, d, stars)]] }
      | none => st1
    if stars ≠ [] then (st2, stars ++ [d])
    else
      let st3 :=
        if st2.undefs = [] ∧ quiet = false then
          warn st2 ("unbound identifier " ++ name)
        else st2
      (st3, [d])

/-- The `Load`/`Del` branch of `visit_Name` (beniget.py lines 1780-1789):
make every resolved Def record this node as a user, registering the
node's Def in the chains table afterwards when it was absent. -/
def visit_Name_load (st0 : DUC) (nodeId : Nat) (name : String) :
    DUC × Nat :=
  match st0.chains.find? (fun p => p.1 = nodeId) with
  | some p =>
    let r := compute_defs st0 nodeId name false
    let ar' := r.2.foldl (fun ar d => addUser ar d p.2) r.1.arena
    ({ r.1 with arena := ar' }, p.2)
  | none =>
    let dnode := st0.arena.length
    let st1 := { st0 with arena := st0.arena ++ [⟨.ast nodeId, [], true⟩] }
    let r := compute_defs st1 nodeId name false
    let ar' := r.2.foldl (fun ar d => addUser ar d dnode) r.1.arena
    (chainsAssign { r.1 with arena := ar' } nodeId dnode, dnode)

/-- `visit_Constant` (beniget.py lines 1705-1707). -/
def visit_Constant (st : DUC) (nodeId : Nat) : DUC × Nat :=
  chainsSetdefault st nodeId

/-- Entering a `DefinitionContext` (beniget.py lines 822-828): push a
copy of the top frame and decrement the top scope depth. -/
def pushCopy (st : DUC) (f : Frame) : DUC :=
  let depths' := st.scope_depths.set (st.scope_depths.length - 1)
    (st.scope_depths.getLastD (-1) - 1)
  { st with definitions := st.definitions ++ [f], scope_depths := depths' }

/-- Leaving a `DefinitionContext`: pop the frame (returned so callers can
merge it, like the `as body_defs` binding) and restore the depth. -/
def popFrame (st : DUC) : DUC × Frame :=
  let depths' := st.scope_depths.set (st.scope_depths.length - 1)
    (st.scope_depths.getLastD (-1) + 1)
  ({ st with definitions := st.definitions.dropLast, scope_depths := depths' },
   st.definitions.getLastD [])

/-- The merge loops at the end of `visit_If` (beniget.py lines
1374-1384): names bound in both branch frames are `set` to the
concatenation of the two Def sets, names bound in only one are
`extend`ed into the enclosing frame. -/
def visit_If_merge (st : DUC) (body_defs orelse_defs : Frame) : DUC :=
  let st1 := body_defs.foldl (fun s p =>
    if frameHas orelse_defs p.1 then
      set_definition s p.1 (p.2 ++ frameGet orelse_defs p.1) (-1)
    else extend_definition s p.1 p.2) st
  orelse_defs.foldl (fun s p =>
    if frameHas body_defs p.1 then s
    else extend_definition s p.1 p.2) st1

/-- The effect of one step of the first `visit_If` merge loop on the
enclosing top frame, as a pure frame transformer (used to state what
`visit_If_merge` computes). -/
def mergeStep1 (orelse_defs : Frame) (f : Frame) (p : String × List Nat) :
    Frame :=
  if frameHas orelse_defs p.1 then
    frameSet f p.1 (odedup (p.2 ++ frameGet orelse_defs p.1))
  else frameSet f p.1 (ounion (frameGet f p.1) p.2)

/-- The effect of one step of the second `visit_If` merge loop on the
enclosing top frame, as a pure frame transformer. -/
def mergeStep2 (body_defs : Frame) (f : Frame) (p : String × List Nat) :
    Frame :=
  if frameHas body_defs p.1 then f
  else frameSet f p.1 (ounion (frameGet f p.1) p.2)

/-- The state after `visit_Module` has entered the module scope and
seeded frame 0 with the builtin Defs (beniget.py lines 861-875).
`Builtins` is `BuiltinsSrc` plus the `__file__` entry (beniget.py lines
276-278); the arena holds one sentinel-backed Def per builtin. -/
def moduleInit (mid : Nat) (precomputed : List String) : DUC :=
  let names := builtinNamesList ++ ["__file__"]
  { arena := names.map (fun k => ⟨.sentinel k, [], true⟩),
    chains := [],
    definitions :=
      [(names.enum.map (fun p => (p.2, [p.1])) : Frame)],
    scope_depths := [-1],
    scopes := [⟨mid, .Module⟩],
    globalsStack := [[]],
    precomputed_locals := [precomputed],
    localsMap := [],
    undefs := [],
    moduleSid := mid,
    deadcode := 0,
    warnings := [] }

/-! ## The use-def inverter (beniget.py lines 2086-2104) -/

/-- An AST node as seen by `UseDefChains`: identity plus whether
`type(node).__name__ == 'Name'`. -/
structure UNode where
  uid : Nat
  isName : Bool
deriving DecidableEq, Repr

/-- A finished `Def`: its node and its ordered set of user handles. -/
structure UDef where
  node : UNode
  users : List Nat
deriving DecidableEq, Repr

/-- The inputs of `UseDefChains.__init__`: the Def arena, the finished
`defuses.chains` dict (node, Def handle) and `defuses._builtins`
(builtin name, Def handle). -/
structure ChainData where
  arena : List UDef
  chains : List (UNode × Nat)
  builtins : List (String × Nat)
deriving DecidableEq, Repr

/-- The mapping computed by `UseDefChains.__init__`: node to list of
defining Def handles, in insertion order. -/
abbrev UDMap := List (UNode × List Nat)

/-- Lookup in the computed mapping ( `[]` when absent ). -/
def udLookup (m : UDMap) (k : UNode) : List Nat :=
  match m.find? (fun p => p.1 = k) with
  | some p => p.2
  | none => []

/-- Key-presence in the computed mapping. -/
def udHas (m : UDMap) (k : UNode) : Bool :=
  (m.find? (fun p => p.1 = k)).isSome

/-- `self.chains.setdefault(node, [])`. -/
def udSetdefault (m : UDMap) (k : UNode) : UDMap :=
  if udHas m k then m else m ++ [(k, [])]

/-- `self.chains.setdefault(node, []).append(chain)`. -/
def udAppend (m : UDMap) (k : UNode) (v : Nat) : UDMap :=
  (udSetdefault m k).map (fun p => if p.1 = k then (p.1, p.2 ++ [v]) else p)

/-- The node of Def handle `i`. -/
def arenaNode (c : ChainData) (i : Nat) : UNode :=
  (c.arena.getD i ⟨⟨0, false⟩, []⟩).node

/-- The user handles of Def handle `i`. -/
def arenaUsers (c : ChainData) (i : Nat) : List Nat :=
  (c.arena.getD i ⟨⟨0, false⟩, []⟩).users

/-- One iteration of the loops in `UseDefChains.__init__` (beniget.py
lines 2096-2104): for the chains loop (`withName = true`) a Name-node
Def first receives an empty entry; then every user of the Def gets the
Def appended under the user's node. -/
def useDefStep (c : ChainData) (withName : Bool) (m : UDMap) (i : Nat) :
    UDMap :=
  let m :=
    if withName ∧ (arenaNode c i).isName then udSetdefault m (arenaNode c i)
    else m
  (arenaUsers c i).foldl (fun m u => udAppend m (arenaNode c u) i) m

/-- `UseDefChains.__init__` (beniget.py lines 2094-2104). -/
def useDefChains (c : ChainData) : UDMap :=
  let m1 := (c.chains.map (fun p => p.2)).foldl (useDefStep c true) []
  (c.builtins.map (fun p => p.2)).foldl (useDefStep c false) m1

/-- Re-invert the node-to-Defs mapping: the nodes whose entry mentions
Def handle `d`. -/
def reinvert (m : UDMap) (d : Nat) : List UNode :=
  (m.filter (fun p => decide (d ∈ p.2))).map (fun p => p.1)

/-! ## Concrete inputs used by counterexamples, scenarios and witnesses -/

/-- Fallback used to sequence the `Option` result of `visit_Name_store`
in concrete traces (never reached on the traces below). -/
def oStep (r : Option (DUC × Nat)) : DUC :=
  match r with
  | some p => p.1
  | none => moduleInit 0 []

/-- The module scope node used in concrete lookup inputs. -/
def modScope : ScopeNode := ⟨0, .Module⟩

/-- A function scope node used in concrete lookup inputs. -/
def funcScope : ScopeNode := ⟨1, .FunctionDef⟩

/-- A class scope node used in concrete inputs. -/
def classScope : ScopeNode := ⟨1, .ClassDef⟩

/-- Locals table where both the module and the direct function scope
bind a live `x` (distinguished by their tags). -/
def lmBoth : ScopeNode → List ALocal := fun s =>
  if s = modScope then [⟨0, "x", true⟩]
  else if s = funcScope then [⟨1, "x", true⟩]
  else []

/-- Locals table where only the direct function scope binds `x`, and
that binding is killed (`islive = false`). -/
def lmKilledInner : ScopeNode → List ALocal := fun s =>
  if s = funcScope then [⟨1, "x", false⟩] else []

/-- Locals table where only the module scope binds `x`, and that binding
is killed (`islive = false`). -/
def lmKilledMod : ScopeNode → List ALocal := fun s =>
  if s = modScope then [⟨0, "x", false⟩] else []

/-- Analyzer state at the walrus target of `class C: (x := 1)`: scope
stack module :: class body, one definitions frame per scope, and the
walrus target is about to be stored with `named_expr=True`. -/
def stC1 : DUC :=
  { arena := [],
    chains := [],
    definitions := [[], []],
    scope_depths := [-1, -1],
    scopes := [⟨0, .Module⟩, ⟨1, .ClassDef⟩],
    globalsStack := [[], []],
    precomputed_locals := [[], ["x"]],
    localsMap := [],
    undefs := [],
    moduleSid := 0,
    deadcode := 0,
    warnings := [] }

/-- Analyzer state at the walrus target of a list comprehension at
module level (`[... (y := 0) ...]`): the walrus Def must hoist past the
comprehension scope into the module scope. -/
def stW1 : DUC :=
  { arena := [],
    chains := [],
    definitions := [[], []],
    scope_depths := [-1, -1],
    scopes := [⟨0, .Module⟩, ⟨5, .ListComp⟩],
    globalsStack := [[], []],
    precomputed_locals := [[], []],
    localsMap := [],
    undefs := [],
    moduleSid := 0,
    deadcode := 0,
    warnings := [] }

/-- Analyzer state at the walrus target of a list comprehension inside a
class body (`class C: [... (y := 0) ...]`): the first enclosing
non-comprehension scope is the class body and at least one comprehension
scope was skipped, so the binding is invalid. -/
def stWC : DUC :=
  { arena := [],
    chains := [],
    definitions := [[], [], []],
    scope_depths := [-1, -1, -1],
    scopes := [⟨0, .Module⟩, ⟨1, .ClassDef⟩, ⟨2, .ListComp⟩],
    globalsStack := [[], [], []],
    precomputed_locals := [[], [], []],
    localsMap := [],
    undefs := [],
    moduleSid := 0,
    deadcode := 0,
    warnings := [] }

/-- Analyzer state inside a function scope whose frame aliases under
`x` a Def (handle 0) that is also recorded under `x` in the enclosing
module frame — the configuration `visit_Nonlocal` (beniget.py line 1462)
creates — together with a builtin-backed Def (handle 1) recorded under
`x` in the function frame.  Def handle 2 is the incoming new Def. -/
def stC2 : DUC :=
  { arena := [⟨.ast 1, [], true⟩, ⟨.sentinel "print", [], true⟩,
              ⟨.ast 2, [], true⟩],
    chains := [],
    definitions := [[("x", [0])], [("x", [0, 1])]],
    scope_depths := [-1, -1],
    scopes := [⟨0, .Module⟩, ⟨1, .FunctionDef⟩],
    globalsStack := [[], []],
    precomputed_locals := [["x"], ["x"]],
    localsMap := [],
    undefs := [],
    moduleSid := 0,
    deadcode := 0,
    warnings := [] }

/-- The frames of `self._definitions[:index]` that belong to the scope
owning the frame at Python index `index` — the reading of "earlier frame
of the same scope": the current scope owns the top `-scope_depths[-1]`
frames when `index = -1`. -/
def sameScopeEarlierFrames (st : DUC) : List Frame :=
  pySlice st.definitions (st.scope_depths.getLastD (-1)) (-1)

/-- Scenario trace for `x=1; x=2; use(x)` at module scope.  Node ids:
1 the constant `1`, 2 the first target `x`, 3 the constant `2`, 4 the
second target `x`, 5 the Name `use`, 6 the argument Name `x`. -/
def c2st0 : DUC := moduleInit 0 ["x"]

/-- Number of builtin Defs seeded by `moduleInit`; fresh Def handles of
the scenario start here. -/
def c2base : Nat := c2st0.arena.length

/-- State after `x=1` (value then target, per `visit_Assign`). -/
def c2st2 : DUC := oStep (visit_Name_store (visit_Constant c2st0 1).1 2 "x" false)

/-- State after `x=2`. -/
def c2st4 : DUC := oStep (visit_Name_store (visit_Constant c2st2 3).1 4 "x" false)

/-- State after visiting the callee Name `use`. -/
def c2st5 : DUC := (visit_Name_load c2st4 5 "use").1

/-- Resolution of the argument read `x` in `use(x)`. -/
def c2res : DUC × List Nat := compute_defs c2st5 6 "x" false

/-- Scenario trace for `if cond:\n  x=1\nelse:\n  x=2\nprint(x)` at
module scope.  Node ids: 1 `cond`, 2 the constant `1`, 3 the first
target `x`, 4 the constant `2`, 5 the second target `x`, 6 the Name
`print`, 7 the argument Name `x`. -/
def c3st0 : DUC := moduleInit 0 ["x"]

/-- Fresh Def handles of the if/else scenario start here. -/
def c3base : Nat := c3st0.arena.length

/-- State after visiting the `if` test. -/
def c3st1 : DUC := (visit_Name_load c3st0 1 "cond").1

/-- Body branch: enter the `DefinitionContext`, visit `x=1`, leave. -/
def c3pop1 : DUC × Frame :=
  popFrame (oStep (visit_Name_store
    (visit_Constant (pushCopy c3st1 (c3st1.definitions.getLastD [])) 2).1
    3 "x" false))

/-- Orelse branch: enter the `DefinitionContext`, visit `x=2`, leave. -/
def c3pop2 : DUC × Frame :=
  popFrame (oStep (visit_Name_store
    (visit_Constant (pushCopy c3pop1.1 (c3pop1.1.definitions.getLastD [])) 4).1
    5 "x" false))

/-- State after the `visit_If` merge of the two branch frames. -/
def c3st8 : DUC := visit_If_merge c3pop2.1 c3pop1.2 c3pop2.2

/-- State after visiting the callee Name `print`. -/
def c3st9 : DUC := (visit_Name_load c3st8 6 "print").1

/-- Resolution of the argument read `x` in `print(x)`. -/
def c3res : DUC × List Nat := compute_defs c3st9 7 "x" false

/-- A small finished analysis for the use-def inverter: Def 0 is a
binding whose users are Defs 1 and 2; Def 1 and 2 wrap Name nodes with
no users; Def 3 is a builtin Def whose user is Def 2. -/
def cW : ChainData :=
  { arena := [⟨⟨10, true⟩, [1, 2]⟩, ⟨⟨11, true⟩, []⟩, ⟨⟨12, true⟩, []⟩,
              ⟨⟨99, false⟩, [2]⟩],
    chains := [(⟨10, true⟩, 0), (⟨11, true⟩, 1), (⟨12, true⟩, 2)],
    builtins := [("len", 3)] }

/-- A small module-scope state for exercising the `visit_If` merge: one
definitions frame holding `x -> [0]` and `z -> [9]`. -/
def c3wSt : DUC :=
  { arena := [⟨.ast 1, [], true⟩], chains := [],
    definitions := [[("x", [0]), ("z", [9])]], scope_depths := [-1],
    scopes := [modScope], globalsStack := [[]], precomputed_locals := [],
    localsMap := [], undefs := [], moduleSid := 0, deadcode := 0,
    warnings := [] }

/-! # Helper lemmas -/

/-- A Python slice `l[0:-k]` with `k ≥ 1` drops the last `k` elements. -/
theorem pySlice_zero_neg {α : Type} (l : List α) (k : Nat) (hk : 1 ≤ k) :
    pySlice l 0 (-(k : Int)) = l.take (l.length - k) := by
  unfold pySlice pySliceIdx
  have h2 : (-(k : Int)) < 0 := by omega
  have h1 : ¬ ((0 : Int) < 0) := by omega
  rw [if_pos h2, if_neg h1]
  have h3 : ((l.length : Int) + -(k : Int)).toNat = l.length - k := by omega
  rw [h3]
  simp

/-! # Claim theorems -/

/-- Claim C9: `ImportInfo.target` joins `orgmodule` and `orgname` with a
dot when `orgname` is non-empty, and returns `orgmodule` alone when
`orgname` is `None` or the empty string. -/
theorem C9_target_characterization (i : ImportInfo) :
    (∀ n, i.orgname = some n → n ≠ "" →
      i.target = i.orgmodule ++ "." ++ n) ∧
    ((i.orgname = none ∨ i.orgname = some "") → i.target = i.orgmodule) := by
  constructor
  · intro n hn hne
    simp [ImportInfo.target, hn, hne]
  · intro h
    rcases h with h | h <;> simp [ImportInfo.target, h]

/-- Witness for C9 at `ImportInfo("os", "path")` and
`ImportInfo("os", None)`. -/
theorem C9_target_witness :
    ImportInfo.target ⟨"os", some "path"⟩ = "os.path" ∧
    ImportInfo.target ⟨"os", none⟩ = "os" := by
  constructor
  · have h := (C9_target_characterization ⟨"os", some "path"⟩).1 "path" rfl
      (by decide)
    rw [h]
    decide
  · exact (C9_target_characterization ⟨"os", none⟩).2 (Or.inl rfl)

/-- Claim C10: calling `lookup_annotation_name_defs` with an empty heads
list yields the `ValueError` outcome (a distinct constructor from every
`LookupError` outcome), for every name and every locals map, before any
scope is searched. -/
theorem C10_empty_heads_value_error (name : String)
    (lm : ScopeNode → List ALocal) :
    lookup_annotation_name_defs name [] lm = .error .valueErrEmptyHeads := by
  rfl

/-- Claim C4: for every from-import with relative level `k ≥ 1`, the
origin module is obtained by dropping the last `k-1` dotted components of
the enclosing module name when it is a package and the last `k` when it
is not, padding with `k` empty components instead of erroring when the
result is empty, then appending the stated source module; and every
alias receives this origin module together with its own name. -/
theorem C4_relative_import (node : ImportFromNode) (modname : String)
    (is_package : Bool) (hl : 1 ≤ node.level) :
    parse_import_from node modname is_package =
      node.names.map (fun al =>
        (al, ⟨specRelativeOrigin modname is_package node.level
                (match node.module with
                 | none => []
                 | some m => pySplitDot m), some al.name⟩)) := by
  unfold parse_import_from specRelativeOrigin
  have h0 : ¬ node.level = 0 := by omega
  simp only [h0, if_false]
  rcases Nat.lt_or_ge node.level 2 with h1 | h2
  · have hlev : node.level = 1 := by omega
    simp only [hlev]
    cases is_package with
    | true => simp
    | false =>
      have : ((-1 : Int)) = -((1 : Nat) : Int) := by norm_num
      rw [this, pySlice_zero_neg _ 1 (by omega)]
      simp
  · have hne1 : ¬ node.level = 1 := by omega
    simp only [hne1, if_false]
    cases is_package with
    | true =>
      have : (1 - (node.level : Int)) = -(((node.level - 1 : Nat)) : Int) := by
        omega
      rw [this, pySlice_zero_neg _ (node.level - 1) (by omega)]
      simp
    | false =>
      rw [pySlice_zero_neg _ node.level (by omega)]
      simp

/-- `setLive` never changes the wrapped node of any arena entry. -/
theorem setLive_node (ar : List DefRec) (i : Nat) (b : Bool) (j : Nat) :
    ((setLive ar i b)[j]?).map (fun r => r.node) =
      (ar[j]?).map (fun r => r.node) := by
  unfold setLive
  cases h : ar[i]? with
  | none => rfl
  | some d =>
    by_cases hji : i = j
    · subst hji
      have hi : i < ar.length := by
        by_contra hge
        rw [List.getElem?_eq_none (by omega)] at h
        cases h
      rw [List.getElem?_set_self hi, h]
      rfl
    · rw [List.getElem?_set_ne hji]

/-- `killStep` never changes the wrapped node of any arena entry. -/
theorem killStep_node (name : String) (dnodes : List Nat)
    (earlier : List Frame) (ar : List DefRec) (d j : Nat) :
    ((killStep name dnodes earlier ar d)[j]?).map (fun r => r.node) =
      (ar[j]?).map (fun r => r.node) := by
  unfold killStep
  split
  · rfl
  · split
    · rfl
    · exact setLive_node ar d false j

/-- The whole kill loop never changes any wrapped node. -/
theorem killFold_node (name : String) (dnodes : List Nat)
    (earlier : List Frame) (prior : List Nat) (ar : List DefRec) (j : Nat) :
    ((prior.foldl (killStep name dnodes earlier) ar)[j]?).map
        (fun r => r.node) =
      (ar[j]?).map (fun r => r.node) := by
  induction prior generalizing ar with
  | nil => rfl
  | cons d rest ih =>
    rw [List.foldl_cons]
    rw [ih (killStep name dnodes earlier ar d)]
    exact killStep_node name dnodes earlier ar d j

/-- A sentinel-backed entry fails the `isinstance(d.node, _ast.AST)`
test, so `killStep` leaves its liveness untouched. -/
theorem killStep_sentinel_live (name : String) (dnodes : List Nat)
    (earlier : List Frame) (ar : List DefRec) (d i : Nat) (s : String)
    (h : (ar[i]?).map (fun r => r.node) = some (.sentinel s)) :
    ((killStep name dnodes earlier ar d)[i]?).map (fun r => r.islive) =
      (ar[i]?).map (fun r => r.islive) := by
  unfold killStep
  split
  · rfl
  · split
    · rfl
    · rename_i hast _
      by_cases hdi : d = i
      · subst hdi
        exfalso
        apply hast
        unfold isAstDef
        cases hd : ar[d]? with
        | none => rfl
        | some r =>
          rw [hd] at h
          simp only [Option.map] at h
          have hr : r.node = .sentinel s := by injection h
          show r.node.isAst = false
          rw [hr]
          rfl
      · unfold setLive
        cases hd : ar[d]? with
        | none => rfl
        | some r => rw [List.getElem?_set_ne hdi]

/-- The whole kill loop leaves the liveness of sentinel-backed entries
untouched. -/
theorem killFold_sentinel_live (name : String) (dnodes : List Nat)
    (earlier : List Frame) (prior : List Nat) (ar : List DefRec)
    (i : Nat) (s : String)
    (h : (ar[i]?).map (fun r => r.node) = some (.sentinel s)) :
    ((prior.foldl (killStep name dnodes earlier) ar)[i]?).map
        (fun r => r.islive) =
      (ar[i]?).map (fun r => r.islive) := by
  induction prior generalizing ar with
  | nil => rfl
  | cons d rest ih =>
    rw [List.foldl_cons]
    have hn := killStep_node name dnodes earlier ar d i
    rw [ih (killStep name dnodes earlier ar d) (by rw [hn]; exact h)]
    exact killStep_sentinel_live name dnodes earlier ar d i s h

/-- `set_definition` never changes any wrapped node. -/
theorem set_definition_node (st : DUC) (name : String) (dnodes : List Nat)
    (index : Int) (j : Nat) :
    (((set_definition st name dnodes index).arena)[j]?).map
        (fun r => r.node) =
      ((st.arena)[j]?).map (fun r => r.node) := by
  unfold set_definition
  split
  · rfl
  · exact killFold_node _ _ _ _ _ _

/-- `set_definition` leaves the liveness of sentinel-backed entries
untouched. -/
theorem set_definition_sentinel_live (st : DUC) (name : String)
    (dnodes : List Nat) (index : Int) (i : Nat) (s : String)
    (h : ((st.arena)[i]?).map (fun r => r.node) = some (.sentinel s)) :
    (((set_definition st name dnodes index).arena)[i]?).map
        (fun r => r.islive) =
      ((st.arena)[i]?).map (fun r => r.islive) := by
  unfold set_definition
  split
  · rfl
  · exact killFold_sentinel_live _ _ _ _ _ _ s h

/-- Claim C8: a Def wrapping a non-AST builtin sentinel that starts live
stays live through any sequence of `set_definition` calls, whatever
names, Def sets and frame indices they carry. -/
theorem C8_builtin_defs_stay_live (st : DUC) (i : Nat) (s : String)
    (hnode : ((st.arena)[i]?).map (fun r => r.node) = some (.sentinel s))
    (hlive : ((st.arena)[i]?).map (fun r => r.islive) = some true)
    (calls : List (String × List Nat × Int)) :
    (((calls.foldl (fun acc c => set_definition acc c.1 c.2.1 c.2.2)
        st).arena)[i]?).map (fun r => r.islive) = some true := by
  induction calls generalizing st with
  | nil => exact hlive
  | cons c rest ih =>
    rw [List.foldl_cons]
    apply ih
    · rw [set_definition_node]
      exact hnode
    · rw [set_definition_sentinel_live st c.1 c.2.1 c.2.2 i s hnode]
      exact hlive

/-- Witness for C8: in `stC2` the Def at handle 1 wraps the builtin
`print` sentinel and survives two `set_definition` calls, the second of
which shadows the builtin name itself. -/
theorem C8_builtin_defs_stay_live_witness :
    ((([(("x" : String), ([2], (-1 : Int))),
        (("print" : String), ([0], (-1 : Int)))].foldl
          (fun acc c => set_definition acc c.1 c.2.1 c.2.2)
          stC2).arena)[1]?).map (fun r => r.islive) = some true :=
  C8_builtin_defs_stay_live stC2 1 "print" (by decide) (by decide) _

/-- Witness for C4: `from ..x import n` inside non-package module
`pkg.sub.mod` resolves the origin module to `pkg.x`. -/
theorem C4_relative_import_witness :
    parse_import_from ⟨some "x", [⟨"n", none⟩], 2⟩ "pkg.sub.mod" false =
      [(⟨"n", none⟩, ⟨"pkg.x", some "n"⟩)] := by
  have h := C4_relative_import ⟨some "x", [⟨"n", none⟩], 2⟩ "pkg.sub.mod"
    false (by decide)
  rw [h]
  decide

/-! ## Lemmas about the use-def inverter -/

/-- Unfold `udLookup` over a cons cell. -/
theorem udLookup_cons (p : UNode × List Nat) (rest : UDMap) (k : UNode) :
    udLookup (p :: rest) k = if p.1 = k then p.2 else udLookup rest k := by
  unfold udLookup
  by_cases h : p.1 = k <;> simp [List.find?, h]

/-- Unfold `udHas` over a cons cell. -/
theorem udHas_cons (p : UNode × List Nat) (rest : UDMap) (k : UNode) :
    udHas (p :: rest) k = if p.1 = k then true else udHas rest k := by
  unfold udHas
  by_cases h : p.1 = k <;> simp [List.find?, h]

/-- `udHas` is membership among the keys. -/
theorem udHas_iff_mem (m : UDMap) (k : UNode) :
    udHas m k = true ↔ k ∈ m.map (fun p => p.1) := by
  induction m with
  | nil => simp [udHas]
  | cons p rest ih =>
    rw [udHas_cons, List.map_cons, List.mem_cons]
    by_cases h : p.1 = k
    · simp [h, eq_comm]
    · simp only [h, if_false]
      rw [ih]
      constructor
      · intro h1
        exact Or.inr h1
      · rintro (h1 | h1)
        · exact absurd h1.symm h
        · exact h1

/-- An absent key looks up to the empty list. -/
theorem udLookup_of_not_udHas (m : UDMap) (k : UNode)
    (h : ¬ udHas m k = true) : udLookup m k = [] := by
  unfold udHas at h
  unfold udLookup
  cases hf : m.find? (fun p => p.1 = k) with
  | none => rfl
  | some p =>
    rw [hf] at h
    exact absurd rfl h

/-- Looking up after appending a single pair at the end. -/
theorem udLookup_append_single (m : UDMap) (k' : UNode) (v : List Nat)
    (k : UNode) :
    udLookup (m ++ [(k', v)]) k =
      if udHas m k then udLookup m k else if k' = k then v else [] := by
  induction m with
  | nil => by_cases h : k' = k <;> simp [udLookup, udHas, List.find?, h]
  | cons p rest ih =>
    rw [List.cons_append, udLookup_cons, udHas_cons]
    by_cases h : p.1 = k
    · simp [h, udLookup_cons]
    · simp only [h, if_false]
      rw [ih]
      by_cases hr : udHas rest k = true
      · simp [hr, udLookup_cons, h]
      · simp [hr]

/-- `udSetdefault` does not change any looked-up value. -/
theorem udLookup_setdefault (m : UDMap) (k' k : UNode) :
    udLookup (udSetdefault m k') k = udLookup m k := by
  unfold udSetdefault
  split
  · rfl
  · rw [udLookup_append_single]
    by_cases hk : udHas m k
    · simp [hk]
    · have h1 : udLookup m k = [] := udLookup_of_not_udHas m k (by simpa using hk)
      by_cases h2 : k' = k <;> simp [hk, h2, h1]

/-- The value-append map of `udAppend` extends the entry at `k` when the
key is present and touches nothing else. -/
theorem udLookup_mapAppend (m : UDMap) (k' : UNode) (v : Nat) (k : UNode) :
    udLookup (m.map (fun p => if p.1 = k' then (p.1, p.2 ++ [v]) else p)) k =
      if udHas m k ∧ k' = k then udLookup m k ++ [v] else udLookup m k := by
  induction m with
  | nil => simp [udLookup, udHas]
  | cons p rest ih =>
    have hfst : (if p.1 = k' then (p.1, p.2 ++ [v]) else p).1 = p.1 := by
      split <;> rfl
    rw [List.map_cons, udLookup_cons, hfst, udHas_cons, udLookup_cons]
    by_cases hp : p.1 = k
    · rw [if_pos hp, if_pos hp]
      by_cases hk : k' = k
      · have hpk : p.1 = k' := by rw [hp, hk]
        rw [if_pos hpk]
        simp [hp, hk]
      · have hpk : ¬ p.1 = k' := by
          rw [hp]
          exact fun hc => hk hc.symm
        rw [if_neg hpk]
        simp [hp, hk]
    · rw [if_neg hp, if_neg hp, ih]
      simp only [hp, if_false]

/-- Appending under the same key extends its entry. -/
theorem udLookup_udAppend_self (m : UDMap) (k : UNode) (v : Nat) :
    udLookup (udAppend m k v) k = udLookup m k ++ [v] := by
  unfold udAppend
  rw [udLookup_mapAppend]
  have h1 : udHas (udSetdefault m k) k = true := by
    rw [udHas_iff_mem]
    unfold udSetdefault
    split
    · rename_i hy
      exact (udHas_iff_mem m k).mp hy
    · simp
  rw [udLookup_setdefault]
  simp [h1]

/-- Appending under a different key changes nothing at `k`. -/
theorem udLookup_udAppend_other (m : UDMap) (k' : UNode) (v : Nat)
    (k : UNode) (h : ¬ k' = k) :
    udLookup (udAppend m k' v) k = udLookup m k := by
  unfold udAppend
  rw [udLookup_mapAppend]
  simp [h, udLookup_setdefault]

/-- Membership after one `udAppend`. -/
theorem mem_udLookup_udAppend (m : UDMap) (k' : UNode) (v : Nat)
    (k : UNode) (d : Nat) :
    d ∈ udLookup (udAppend m k' v) k ↔
      d ∈ udLookup m k ∨ (k' = k ∧ v = d) := by
  by_cases h : k' = k
  · subst h
    rw [udLookup_udAppend_self]
    simp [eq_comm]
  · rw [udLookup_udAppend_other m k' v k h]
    simp [h]

/-- Membership after the per-Def user loop. -/
theorem mem_udLookup_usersFold (c : ChainData) (i : Nat)
    (users : List Nat) (m : UDMap) (k : UNode) (d : Nat) :
    d ∈ udLookup (users.foldl (fun m u => udAppend m (arenaNode c u) i) m) k
      ↔ d ∈ udLookup m k ∨ (i = d ∧ ∃ u ∈ users, arenaNode c u = k) := by
  induction users generalizing m with
  | nil => simp
  | cons u rest ih =>
    rw [List.foldl_cons, ih, mem_udLookup_udAppend]
    constructor
    · rintro ((h | ⟨hk, hv⟩) | ⟨hd, u', hu', hk⟩)
      · exact Or.inl h
      · exact Or.inr ⟨hv, u, List.mem_cons_self u rest, hk⟩
      · exact Or.inr ⟨hd, u', List.mem_cons_of_mem u hu', hk⟩
    · rintro (h | ⟨hd, u', hu', hk⟩)
      · exact Or.inl (Or.inl h)
      · rcases List.mem_cons.mp hu' with h1 | h1
        · subst h1
          exact Or.inl (Or.inr ⟨hk, hd⟩)
        · exact Or.inr ⟨hd, u', h1, hk⟩

/-- Membership after one `useDefStep`. -/
theorem mem_udLookup_useDefStep (c : ChainData) (w : Bool) (m : UDMap)
    (i : Nat) (k : UNode) (d : Nat) :
    d ∈ udLookup (useDefStep c w m i) k ↔
      d ∈ udLookup m k ∨ (i = d ∧ ∃ u ∈ arenaUsers c i, arenaNode c u = k) := by
  unfold useDefStep
  rw [mem_udLookup_usersFold]
  split
  · rw [udLookup_setdefault]
  · rfl

/-- Membership after a whole fold of `useDefStep`s. -/
theorem mem_udLookup_defsFold (c : ChainData) (w : Bool) (ids : List Nat)
    (m : UDMap) (k : UNode) (d : Nat) :
    d ∈ udLookup (ids.foldl (useDefStep c w) m) k ↔
      d ∈ udLookup m k ∨
        (d ∈ ids ∧ ∃ u ∈ arenaUsers c d, arenaNode c u = k) := by
  induction ids generalizing m with
  | nil => simp
  | cons i rest ih =>
    rw [List.foldl_cons, ih, mem_udLookup_useDefStep]
    constructor
    · rintro ((h | ⟨hid, hu⟩) | ⟨hd, hu⟩)
      · exact Or.inl h
      · subst hid
        exact Or.inr ⟨List.mem_cons_self i rest, hu⟩
      · exact Or.inr ⟨List.mem_cons_of_mem i hd, hu⟩
    · rintro (h | ⟨hd, hu⟩)
      · exact Or.inl (Or.inl h)
      · rcases List.mem_cons.mp hd with h1 | h1
        · subst h1
          exact Or.inl (Or.inr ⟨rfl, hu⟩)
        · exact Or.inr ⟨h1, hu⟩

/-- Membership in the full inverter output. -/
theorem mem_udLookup_useDefChains (c : ChainData) (k : UNode) (d : Nat) :
    d ∈ udLookup (useDefChains c) k ↔
      ((d ∈ c.chains.map (fun p => p.2) ∨ d ∈ c.builtins.map (fun p => p.2)) ∧
       ∃ u ∈ arenaUsers c d, arenaNode c u = k) := by
  unfold useDefChains
  rw [mem_udLookup_defsFold, mem_udLookup_defsFold]
  have hnil : udLookup ([] : UDMap) k = [] := rfl
  rw [hnil]
  simp only [List.not_mem_nil, false_or]
  constructor
  · rintro (⟨h1, hp⟩ | ⟨h2, hp⟩)
    · exact ⟨Or.inl h1, hp⟩
    · exact ⟨Or.inr h2, hp⟩
  · rintro ⟨h1 | h2, hp⟩
    · exact Or.inl ⟨h1, hp⟩
    · exact Or.inr ⟨h2, hp⟩

/-- Anything appearing in the re-inversion for `d` is a key of `m`. -/
theorem mem_udKeys_of_mem_reinvert (m : UDMap) (d : Nat) (n : UNode)
    (h : n ∈ reinvert m d) : n ∈ m.map (fun p => p.1) := by
  unfold reinvert at h
  rcases List.mem_map.mp h with ⟨q, hq, rfl⟩
  exact List.mem_map_of_mem _ (List.mem_of_mem_filter hq)

/-- Unfold `reinvert` over a cons cell. -/
theorem reinvert_cons (p : UNode × List Nat) (rest : UDMap) (d : Nat) :
    reinvert (p :: rest) d =
      if d ∈ p.2 then p.1 :: reinvert rest d else reinvert rest d := by
  unfold reinvert
  rw [List.filter_cons]
  by_cases h : d ∈ p.2 <;> simp [h]

/-- Over a map with distinct keys, re-inversion membership coincides
with membership in the looked-up entry. -/
theorem mem_reinvert_iff (m : UDMap)
    (hm : (m.map (fun p => p.1)).Nodup) (d : Nat) (n : UNode) :
    n ∈ reinvert m d ↔ d ∈ udLookup m n := by
  induction m with
  | nil => simp [reinvert, udLookup]
  | cons p rest ih =>
    have hmc := hm
    simp only [List.map_cons, List.nodup_cons] at hmc
    have hrest := ih hmc.2
    rw [reinvert_cons, udLookup_cons]
    by_cases hd : d ∈ p.2
    · by_cases hn : p.1 = n
      · simp [hd, hn]
      · simp only [hd, if_pos, hn, if_false]
        rw [List.mem_cons]
        constructor
        · rintro (h1 | h1)
          · exact absurd h1.symm hn
          · exact hrest.mp h1
        · intro h1
          exact Or.inr (hrest.mpr h1)
    · by_cases hn : p.1 = n
      · simp only [hd, if_false, hn, if_pos]
        constructor
        · intro h1
          exfalso
          have := mem_udKeys_of_mem_reinvert rest d n h1
          rw [← hn] at this
          exact hmc.1 this
        · intro h1
          exact h1.elim
      · simp only [hd, if_false, hn]
        exact hrest

/-- Keys after `udSetdefault`. -/
theorem udKeys_setdefault (m : UDMap) (k : UNode) :
    (udSetdefault m k).map (fun p => p.1) =
      if udHas m k then m.map (fun p => p.1)
      else m.map (fun p => p.1) ++ [k] := by
  unfold udSetdefault
  split
  · rfl
  · simp

/-- `udSetdefault` preserves distinctness of keys. -/
theorem nodup_keys_setdefault (m : UDMap) (k : UNode)
    (h : (m.map (fun p => p.1)).Nodup) :
    ((udSetdefault m k).map (fun p => p.1)).Nodup := by
  rw [udKeys_setdefault]
  split
  · exact h
  · rename_i hno
    have hk : k ∉ m.map (fun p => p.1) :=
      fun hc => hno ((udHas_iff_mem m k).mpr hc)
    simp [List.nodup_append, h, hk]

/-- `udAppend` has the same keys as `udSetdefault`. -/
theorem udKeys_udAppend (m : UDMap) (k : UNode) (v : Nat) :
    (udAppend m k v).map (fun p => p.1) =
      (udSetdefault m k).map (fun p => p.1) := by
  unfold udAppend
  rw [List.map_map]
  apply List.map_congr_left
  intro p _
  simp only [Function.comp]
  split <;> rfl

/-- `udAppend` preserves distinctness of keys. -/
theorem nodup_keys_udAppend (m : UDMap) (k : UNode) (v : Nat)
    (h : (m.map (fun p => p.1)).Nodup) :
    ((udAppend m k v).map (fun p => p.1)).Nodup := by
  rw [udKeys_udAppend]
  exact nodup_keys_setdefault m k h

/-- The user loop preserves distinctness of keys. -/
theorem nodup_keys_usersFold (c : ChainData) (i : Nat) (users : List Nat)
    (m : UDMap) (h : (m.map (fun p => p.1)).Nodup) :
    (((users.foldl (fun m u => udAppend m (arenaNode c u) i) m)).map
        (fun p => p.1)).Nodup := by
  induction users generalizing m with
  | nil => exact h
  | cons u rest ih =>
    rw [List.foldl_cons]
    exact ih _ (nodup_keys_udAppend m (arenaNode c u) i h)

/-- `useDefStep` preserves distinctness of keys. -/
theorem nodup_keys_useDefStep (c : ChainData) (w : Bool) (m : UDMap)
    (i : Nat) (h : (m.map (fun p => p.1)).Nodup) :
    ((useDefStep c w m i).map (fun p => p.1)).Nodup := by
  unfold useDefStep
  split
  · exact nodup_keys_usersFold c i _ _ (nodup_keys_setdefault m _ h)
  · exact nodup_keys_usersFold c i _ _ h

/-- Folding `useDefStep` preserves distinctness of keys. -/
theorem nodup_keys_defsFold (c : ChainData) (w : Bool) (ids : List Nat)
    (m : UDMap) (h : (m.map (fun p => p.1)).Nodup) :
    ((ids.foldl (useDefStep c w) m).map (fun p => p.1)).Nodup := by
  induction ids generalizing m with
  | nil => exact h
  | cons i rest ih =>
    rw [List.foldl_cons]
    exact ih _ (nodup_keys_useDefStep c w m i h)

/-- The inverter output has distinct keys. -/
theorem nodup_keys_useDefChains (c : ChainData) :
    ((useDefChains c).map (fun p => p.1)).Nodup := by
  unfold useDefChains
  exact nodup_keys_defsFold c false _ _
    (nodup_keys_defsFold c true _ [] (by simp))

/-- `udSetdefault` preserves key-presence. -/
theorem udHas_mono_setdefault (m : UDMap) (k' k : UNode)
    (h : udHas m k = true) : udHas (udSetdefault m k') k = true := by
  rw [udHas_iff_mem] at h ⊢
  rw [udKeys_setdefault]
  split
  · exact h
  · exact List.mem_append_left _ h

/-- `udAppend` preserves key-presence. -/
theorem udHas_mono_udAppend (m : UDMap) (k' : UNode) (v : Nat) (k : UNode)
    (h : udHas m k = true) : udHas (udAppend m k' v) k = true := by
  rw [udHas_iff_mem, udKeys_udAppend, ← udHas_iff_mem]
  exact udHas_mono_setdefault m k' k h

/-- The user loop preserves key-presence. -/
theorem udHas_mono_usersFold (c : ChainData) (i : Nat) (users : List Nat)
    (m : UDMap) (k : UNode) (h : udHas m k = true) :
    udHas (users.foldl (fun m u => udAppend m (arenaNode c u) i) m) k
      = true := by
  induction users generalizing m with
  | nil => exact h
  | cons u rest ih =>
    rw [List.foldl_cons]
    exact ih _ (udHas_mono_udAppend m (arenaNode c u) i k h)

/-- `useDefStep` preserves key-presence. -/
theorem udHas_mono_useDefStep (c : ChainData) (w : Bool) (m : UDMap)
    (i : Nat) (k : UNode) (h : udHas m k = true) :
    udHas (useDefStep c w m i) k = true := by
  unfold useDefStep
  split
  · exact udHas_mono_usersFold c i _ _ k (udHas_mono_setdefault m _ k h)
  · exact udHas_mono_usersFold c i _ _ k h

/-- Folding `useDefStep` preserves key-presence. -/
theorem udHas_mono_defsFold (c : ChainData) (w : Bool) (ids : List Nat)
    (m : UDMap) (k : UNode) (h : udHas m k = true) :
    udHas (ids.foldl (useDefStep c w) m) k = true := by
  induction ids generalizing m with
  | nil => exact h
  | cons i rest ih =>
    rw [List.foldl_cons]
    exact ih _ (udHas_mono_useDefStep c w m i k h)

/-- Processing a Name-node Def in the chains loop installs an entry for
its node. -/
theorem udHas_useDefStep_name (c : ChainData) (m : UDMap) (i : Nat)
    (hn : (arenaNode c i).isName = true) :
    udHas (useDefStep c true m i) (arenaNode c i) = true := by
  unfold useDefStep
  rw [if_pos ⟨rfl, hn⟩]
  apply udHas_mono_usersFold
  rw [udHas_iff_mem, udKeys_setdefault]
  split
  · rename_i hy
    exact (udHas_iff_mem m _).mp hy
  · exact List.mem_append_right _ (by simp)

/-- Every Name-node Def processed by the chains fold has an entry in the
result. -/
theorem udHas_defsFold_establish (c : ChainData) (ids : List Nat)
    (m : UDMap) (i : Nat) (hi : i ∈ ids)
    (hn : (arenaNode c i).isName = true) :
    udHas (ids.foldl (useDefStep c true) m) (arenaNode c i) = true := by
  induction ids generalizing m with
  | nil => cases hi
  | cons j rest ih =>
    rw [List.foldl_cons]
    rcases List.mem_cons.mp hi with h1 | h1
    · subst h1
      exact udHas_mono_defsFold c true rest _ _
        (udHas_useDefStep_name c m i hn)
    · exact ih _ h1

/-- Claim C7: (round-trip) for every Def of the finished analysis
(a chains value or a builtin Def), re-inverting the node-to-Defs mapping
built by `UseDefChains` recovers exactly the nodes of that Def's users —
the original def-to-use chains up to set equality; and (totality) under
the `chains[n].node = n` well-formedness of the chains table, every Name
node present in the chains has an entry in the inverter's mapping, even
when its Def has no users. -/
theorem C7_usedef_roundtrip :
    (∀ (c : ChainData) (d : Nat),
        (d ∈ c.chains.map (fun p => p.2) ∨
         d ∈ c.builtins.map (fun p => p.2)) →
        ∀ (n : UNode),
          n ∈ reinvert (useDefChains c) d ↔
            n ∈ (arenaUsers c d).map (fun u => arenaNode c u)) ∧
    (∀ (c : ChainData),
        (∀ p ∈ c.chains, arenaNode c p.2 = p.1) →
        ∀ p ∈ c.chains, p.1.isName = true →
          udHas (useDefChains c) p.1 = true) := by
  constructor
  · intro c d hd n
    rw [mem_reinvert_iff _ (nodup_keys_useDefChains c),
        mem_udLookup_useDefChains]
    constructor
    · rintro ⟨_, u, hu, hk⟩
      exact List.mem_map.mpr ⟨u, hu, hk⟩
    · intro hmem
      rcases List.mem_map.mp hmem with ⟨u, hu, hk⟩
      exact ⟨hd, u, hu, hk⟩
  · intro c hwf p hp hname
    unfold useDefChains
    apply udHas_mono_defsFold
    have hnode : arenaNode c p.2 = p.1 := hwf p hp
    have hmem : p.2 ∈ c.chains.map (fun q => q.2) :=
      List.mem_map_of_mem _ hp
    have := udHas_defsFold_establish c (c.chains.map (fun q => q.2)) [] p.2
      hmem (by rw [hnode]; exact hname)
    rw [hnode] at this
    exact this

/-- Witness for C7 on the concrete finished analysis `cW`: node 11 is
recovered as a use of Def 0, and the user-less Name Def at node 10 still
has an entry. -/
theorem C7_usedef_roundtrip_witness :
    ((⟨11, true⟩ : UNode) ∈ reinvert (useDefChains cW) 0) ∧
    udHas (useDefChains cW) ⟨10, true⟩ = true := by
  constructor
  · exact (C7_usedef_roundtrip.1 cW 0 (Or.inl (by decide))
      ⟨11, true⟩).mpr (by decide)
  · exact C7_usedef_roundtrip.2 cW (by decide) (⟨10, true⟩, 0)
      (by decide) (by decide)

/-! ## Lemmas about the annotation-name lookup -/

/-- With `only_live = true`, the `_lookup` recursion is exactly the
scan returning the live matches of the first scope that has any. -/
theorem lookupRevGo_true_eq (name : String) (lm : ScopeNode → List ALocal)
    (l : List ScopeNode) :
    lookupRevGo name lm true l = firstLiveMatch name lm l := by
  induction l with
  | nil => rfl
  | cons c rest ih =>
    show (if scopeMatches lm name true c ≠ [] then
            Except.ok (scopeMatches lm name true c)
          else if rest = [] then .error () else lookupRevGo name lm true rest)
        = (if scopeMatches lm name true c ≠ [] then
            Except.ok (scopeMatches lm name true c)
          else firstLiveMatch name lm rest)
    by_cases h : scopeMatches lm name true c = []
    · have hni : ¬ (scopeMatches lm name true c ≠ []) := fun hc => hc h
      rw [if_neg hni, if_neg hni]
      cases rest with
      | nil => rfl
      | cons d ds =>
        rw [if_neg (by simp)]
        exact ih
    · rw [if_pos h, if_pos h]

/-- The live scan fails exactly when no searched scope has a live
matching local. -/
theorem firstLiveMatch_error_iff (name : String)
    (lm : ScopeNode → List ALocal) (l : List ScopeNode) :
    firstLiveMatch name lm l = .error () ↔
      ∀ s ∈ l, scopeMatches lm name true s = [] := by
  induction l with
  | nil => simp [firstLiveMatch]
  | cons c rest ih =>
    unfold firstLiveMatch
    by_cases h : scopeMatches lm name true c = []
    · rw [if_neg (by simpa using h)]
      simp [h, ih]
    · rw [if_pos (by simpa using h)]
      simp [h]

/-- A successful live scan returns the non-empty live matches of one of
the searched scopes. -/
theorem firstLiveMatch_ok (name : String) (lm : ScopeNode → List ALocal)
    (l : List ScopeNode) (ds : List ALocal)
    (h : firstLiveMatch name lm l = .ok ds) :
    ∃ s ∈ l, ds ≠ [] ∧ ds = scopeMatches lm name true s := by
  induction l with
  | nil => cases h
  | cons c rest ih =>
    unfold firstLiveMatch at h
    by_cases hc : scopeMatches lm name true c = []
    · rw [if_neg (by simpa using hc)] at h
      rcases ih h with ⟨s, hs, h1, h2⟩
      exact ⟨s, List.mem_cons_of_mem c hs, h1, h2⟩
    · rw [if_pos (by simpa using hc)] at h
      injection h with h
      refine ⟨c, List.mem_cons_self c rest, ?_, h.symm⟩
      rw [h] at hc
      exact hc

/-- When no searched scope has a live match, the relaxed retry is
decided entirely by the name matches of the first examined scope: the
`only_live=False` flag is not passed through the recursion. -/
theorem lookupRevGo_false_no_live (name : String)
    (lm : ScopeNode → List ALocal) (c : ScopeNode) (rest : List ScopeNode)
    (hall : ∀ s ∈ c :: rest, scopeMatches lm name true s = []) :
    lookupRevGo name lm false (c :: rest) =
      if scopeMatches lm name false c = [] then .error ()
      else .ok (scopeMatches lm name false c) := by
  unfold lookupRevGo
  by_cases h : scopeMatches lm name false c = []
  · rw [if_neg (by simpa using h), if_pos h]
    cases rest with
    | nil => rfl
    | cons d ds =>
      rw [if_neg (by simp), lookupRevGo_true_eq]
      exact (firstLiveMatch_error_iff name lm (d :: ds)).mpr
        (fun s hs => hall s (List.mem_cons_of_mem c hs))
  · rw [if_pos (by simpa using h), if_neg h]

/-- `get_lookup_scopes` on a heads list `module :: middle ++ [direct]`
whose direct scope is not a `def695` scope: the module scope stays
first, the closed middle scopes survive, the direct scope stays last. -/
theorem get_lookup_scopes_concat (g direct : ScopeNode)
    (middle : List ScopeNode) (hd : ¬ direct.kind = .Def695) :
    get_lookup_scopes (g :: middle ++ [direct]) =
      .ok (g :: middle.filter (fun s => isClosedScope s.kind) ++ [direct]) := by
  have h1 : (g :: middle ++ [direct]).getLast? = some direct :=
    List.getLast?_concat _
  have h2 : (g :: middle ++ [direct]).dropLast = g :: middle :=
    List.dropLast_concat
  unfold get_lookup_scopes
  rw [h1, h2]
  show (match middle.getLast? with
        | some c =>
          if direct.kind = ScopeKind.Def695 ∧ c.kind = ScopeKind.ClassDef
          then
            Except.ok (g :: List.filter (fun s => isClosedScope s.kind)
              middle.dropLast ++ [c, direct])
          else
            Except.ok (g :: List.filter (fun s => isClosedScope s.kind)
              middle ++ [direct])
        | none =>
          Except.ok (g :: List.filter (fun s => isClosedScope s.kind)
            middle ++ [direct]))
      = Except.ok (g :: List.filter (fun s => isClosedScope s.kind)
          middle ++ [direct])
  cases hm : middle.getLast? with
  | none => rfl
  | some c =>
    have hno : ¬ (direct.kind = .Def695 ∧ c.kind = .ClassDef) :=
      fun hc => hd hc.1
    show (if direct.kind = ScopeKind.Def695 ∧ c.kind = ScopeKind.ClassDef
          then
            Except.ok (g :: List.filter (fun s => isClosedScope s.kind)
              middle.dropLast ++ [c, direct])
          else
            Except.ok (g :: List.filter (fun s => isClosedScope s.kind)
              middle ++ [direct]))
        = Except.ok (g :: List.filter (fun s => isClosedScope s.kind)
            middle ++ [direct])
    rw [if_neg hno]

/-- Unfold `annotation_search_scopes` when the scope stripping
succeeds. -/
theorem annotation_search_scopes_ok (heads : List ScopeNode)
    (scopes : List ScopeNode) (h : get_lookup_scopes heads = .ok scopes) :
    annotation_search_scopes heads =
      if scopes.length > 1 ∧
         ¬ (scopes.getLastD ⟨0, .Module⟩).kind = .Def695
      then .ok (scopes.drop 1 ++ scopes.take 1) else .ok scopes := by
  unfold annotation_search_scopes
  rw [h]

/-- Unfold `lookup_annotation_name_defs` when the scope stripping
succeeds. -/
theorem lookup_annotation_name_defs_ok (name : String)
    (heads : List ScopeNode) (lm : ScopeNode → List ALocal)
    (scopes : List ScopeNode)
    (h : annotation_search_scopes heads = .ok scopes) :
    lookup_annotation_name_defs name heads lm =
      (match lookupScopes name lm true scopes with
       | .ok defs => .ok defs
       | .error _ =>
         if name ∈ builtinNamesList then .error (.isBuiltin name)
         else
           match lookupScopes name lm false scopes with
           | .error _ => .error (.notFound name)
           | .ok _ => .error (.killed name)) := by
  unfold lookup_annotation_name_defs
  rw [h]

/-- The reorder of `lookup_annotation_name_defs` on the same heads
shape: `scopes.append(scopes.pop(0))` moves the module scope to the last
position of the list. -/
theorem annotation_search_scopes_concat (g direct : ScopeNode)
    (middle : List ScopeNode) (hd : ¬ direct.kind = .Def695) :
    annotation_search_scopes (g :: middle ++ [direct]) =
      .ok ((middle.filter (fun s => isClosedScope s.kind) ++ [direct])
           ++ [g]) := by
  rw [annotation_search_scopes_ok _ _ (get_lookup_scopes_concat g direct
    middle hd)]
  have hlast : (g :: middle.filter (fun s => isClosedScope s.kind)
      ++ [direct]).getLastD ⟨0, .Module⟩ = direct := by
    rw [List.getLastD_eq_getLast?, List.getLast?_concat]
    rfl
  have hcond : (g :: middle.filter (fun s => isClosedScope s.kind)
      ++ [direct]).length > 1 ∧
      ¬ ((g :: middle.filter (fun s => isClosedScope s.kind)
          ++ [direct]).getLastD ⟨0, .Module⟩).kind = .Def695 := by
    constructor
    · simp
    · rw [hlast]
      exact hd
  rw [if_pos hcond]
  rfl

/-- Claim C5 (amended): with more than one scope and a non-def695
direct scope, the module scope is moved to the last *position of the
scope list*; since `_lookup` examines the list from its last element,
the module scope is searched *first*, then the direct scope, then the
closed enclosing scopes — not last, as a reading of "search order"
would suggest. -/
theorem C5_annotation_module_scope_order (g direct : ScopeNode)
    (middle : List ScopeNode) (lm : ScopeNode → List ALocal)
    (name : String) (hd : ¬ direct.kind = .Def695) :
    (annotation_search_scopes (g :: middle ++ [direct]) =
      .ok ((middle.filter (fun s => isClosedScope s.kind) ++ [direct])
           ++ [g])) ∧
    (scopeMatches lm name true g ≠ [] →
      lookup_annotation_name_defs name (g :: middle ++ [direct]) lm =
        .ok (scopeMatches lm name true g)) ∧
    (scopeMatches lm name true g = [] →
      scopeMatches lm name true direct ≠ [] →
      lookup_annotation_name_defs name (g :: middle ++ [direct]) lm =
        .ok (scopeMatches lm name true direct)) := by
  have hsearch := annotation_search_scopes_concat g direct middle hd
  have hrev : ((middle.filter (fun s => isClosedScope s.kind) ++ [direct])
      ++ [g]).reverse =
      g :: direct ::
        (middle.filter (fun s => isClosedScope s.kind)).reverse := by
    simp
  refine ⟨hsearch, ?_, ?_⟩
  · intro hg
    have hls : lookupScopes name lm true
        ((middle.filter (fun s => isClosedScope s.kind) ++ [direct])
         ++ [g]) = .ok (scopeMatches lm name true g) := by
      unfold lookupScopes
      rw [hrev, lookupRevGo_true_eq]
      show (if scopeMatches lm name true g ≠ [] then
              Except.ok (scopeMatches lm name true g)
            else firstLiveMatch name lm (direct ::
              (middle.filter (fun s => isClosedScope s.kind)).reverse)) = _
      rw [if_pos hg]
    rw [lookup_annotation_name_defs_ok name _ lm _ hsearch, hls]
  · intro hg hdirect
    have hls : lookupScopes name lm true
        ((middle.filter (fun s => isClosedScope s.kind) ++ [direct])
         ++ [g]) = .ok (scopeMatches lm name true direct) := by
      unfold lookupScopes
      rw [hrev, lookupRevGo_true_eq]
      show (if scopeMatches lm name true g ≠ [] then
              Except.ok (scopeMatches lm name true g)
            else firstLiveMatch name lm (direct ::
              (middle.filter (fun s => isClosedScope s.kind)).reverse)) = _
      rw [if_neg (fun hc => hc hg)]
      show (if scopeMatches lm name true direct ≠ [] then
              Except.ok (scopeMatches lm name true direct)
            else firstLiveMatch name lm
              (middle.filter (fun s => isClosedScope s.kind)).reverse) = _
      rw [if_pos hdirect]
    rw [lookup_annotation_name_defs_ok name _ lm _ hsearch, hls]

/-- Witness for C5 (amended) at `heads = [module, function]` with a live
`x` in both scopes: the module's binding (tag 0) is returned, because
the module scope, last in the list, is searched first. -/
theorem C5_annotation_module_scope_order_witness :
    annotation_search_scopes [modScope, funcScope] =
      .ok [funcScope, modScope] ∧
    lookup_annotation_name_defs "x" [modScope, funcScope] lmBoth =
      .ok [⟨0, "x", true⟩] := by
  have h := C5_annotation_module_scope_order modScope funcScope [] lmBoth
    "x" (by decide)
  refine ⟨h.1, ?_⟩
  have h2 := h.2.1 (by decide)
  have h3 : scopeMatches lmBoth "x" true modScope =
      [⟨0, "x", true⟩] := by decide
  rw [← h3]
  exact h2

/-- Counterexample to C5 as stated: at `heads = [module, function]`
both scopes hold a live `x`; were the module scope searched last (after
the direct function scope), the lookup would return the function's
binding (tag 1).  It returns the module's binding (tag 0). -/
theorem C5_counterexample :
    lookup_annotation_name_defs "x" [modScope, funcScope] lmBoth =
      .ok [⟨0, "x", true⟩] ∧
    scopeMatches lmBoth "x" true funcScope = [⟨1, "x", true⟩] ∧
    ¬ ([(⟨0, "x", true⟩ : ALocal)] = [⟨1, "x", true⟩]) := by
  decide

/-- Claim C6 (amended): the live scan accepts only live locals whose
name matches, returning the matches of the first scope (in examination
order) that has any; when no scope holds a live match the failure is
"is a builtin" for builtin names, otherwise "is killed" only when a
(necessarily non-live) name match exists in the *first examined* scope —
the last element of the reordered scope list — and "not found"
otherwise, even if a killed definition exists in another searched scope,
because the relaxed retry does not propagate its `only_live=False` flag
into the recursion. -/
theorem C6_annotation_failure_modes :
    (∀ (heads : List ScopeNode) (lm : ScopeNode → List ALocal)
       (name : String) (ds : List ALocal),
       lookup_annotation_name_defs name heads lm = .ok ds →
       ∃ scopes, annotation_search_scopes heads = .ok scopes ∧
         ∃ s ∈ scopes, ds ≠ [] ∧ ds = scopeMatches lm name true s) ∧
    (∀ (heads : List ScopeNode) (lm : ScopeNode → List ALocal)
       (name : String) (scopes : List ScopeNode) (c : ScopeNode)
       (restR : List ScopeNode),
       annotation_search_scopes heads = .ok scopes →
       scopes.reverse = c :: restR →
       (∀ s ∈ scopes, scopeMatches lm name true s = []) →
       ((name ∈ builtinNamesList →
           lookup_annotation_name_defs name heads lm =
             .error (.isBuiltin name)) ∧
        (name ∉ builtinNamesList → scopeMatches lm name false c ≠ [] →
           lookup_annotation_name_defs name heads lm =
             .error (.killed name)) ∧
        (name ∉ builtinNamesList → scopeMatches lm name false c = [] →
           lookup_annotation_name_defs name heads lm =
             .error (.notFound name)))) := by
  constructor
  · intro heads lm name ds h
    cases han : annotation_search_scopes heads with
    | error e =>
      unfold lookup_annotation_name_defs at h
      rw [han] at h
      exact Except.noConfusion h
    | ok scopes =>
      rw [lookup_annotation_name_defs_ok name heads lm scopes han] at h
      refine ⟨scopes, rfl, ?_⟩
      split at h
      · rename_i defs hls
        injection h with h
        subst h
        unfold lookupScopes at hls
        rw [lookupRevGo_true_eq] at hls
        rcases firstLiveMatch_ok name lm scopes.reverse _ hls with
          ⟨s, hs, h1, h2⟩
        exact ⟨s, List.mem_reverse.mp hs, h1, h2⟩
      · rename_i e2 hls
        split at h
        · exact Except.noConfusion h
        · split at h
          · exact Except.noConfusion h
          · exact Except.noConfusion h
  · intro heads lm name scopes c restR han hrev hall
    have hprim : lookupScopes name lm true scopes = .error () := by
      unfold lookupScopes
      rw [lookupRevGo_true_eq]
      exact (firstLiveMatch_error_iff name lm scopes.reverse).mpr
        (fun s hs => hall s (List.mem_reverse.mp hs))
    have hallR : ∀ s ∈ c :: restR, scopeMatches lm name true s = [] := by
      intro s hs
      apply hall
      apply List.mem_reverse.mp
      rw [hrev]
      exact hs
    have heq := lookup_annotation_name_defs_ok name heads lm scopes han
    rw [hprim] at heq
    refine ⟨?_, ?_, ?_⟩
    · intro hb
      rw [heq]
      show (if name ∈ builtinNamesList then
              Except.error (AnnErr.isBuiltin name)
            else
              match lookupScopes name lm false scopes with
              | .error _ => Except.error (AnnErr.notFound name)
              | .ok _ => Except.error (AnnErr.killed name)) = _
      rw [if_pos hb]
    · intro hb hc
      have hrelax : lookupScopes name lm false scopes =
          .ok (scopeMatches lm name false c) := by
        unfold lookupScopes
        rw [hrev, lookupRevGo_false_no_live name lm c restR hallR,
            if_neg hc]
      rw [heq]
      show (if name ∈ builtinNamesList then
              Except.error (AnnErr.isBuiltin name)
            else
              match lookupScopes name lm false scopes with
              | .error _ => Except.error (AnnErr.notFound name)
              | .ok _ => Except.error (AnnErr.killed name)) = _
      rw [if_neg hb, hrelax]
    · intro hb hc
      have hrelax : lookupScopes name lm false scopes = .error () := by
        unfold lookupScopes
        rw [hrev, lookupRevGo_false_no_live name lm c restR hallR,
            if_pos hc]
      rw [heq]
      show (if name ∈ builtinNamesList then
              Except.error (AnnErr.isBuiltin name)
            else
              match lookupScopes name lm false scopes with
              | .error _ => Except.error (AnnErr.notFound name)
              | .ok _ => Except.error (AnnErr.killed name)) = _
      rw [if_neg hb, hrelax]

/-- Witness for C6 (amended): a killed `x` in the module scope (first
examined) reports "is killed"; a killed `x` in the function scope
(examined second, with the liveness filter back on) reports
"not found". -/
theorem C6_annotation_failure_modes_witness :
    lookup_annotation_name_defs "x" [modScope, funcScope] lmKilledMod =
      .error (.killed "x") ∧
    lookup_annotation_name_defs "x" [modScope, funcScope] lmKilledInner =
      .error (.notFound "x") := by
  constructor
  · exact (C6_annotation_failure_modes.2 [modScope, funcScope] lmKilledMod
      "x" [funcScope, modScope] modScope [funcScope] (by decide)
      (by decide) (by intro s hs; fin_cases hs <;> decide)).2.1
      (by decide) (by decide)
  · exact (C6_annotation_failure_modes.2 [modScope, funcScope]
      lmKilledInner "x" [funcScope, modScope] modScope [funcScope]
      (by decide) (by decide)
      (by intro s hs; fin_cases hs <;> decide)).2.2
      (by decide) (by decide)

/-- Counterexample to C6 as stated: `x` is not a builtin, a non-live Def
named `x` exists in the searched function scope, yet the lookup reports
"not found" where the claim requires "is killed". -/
theorem C6_counterexample :
    lookup_annotation_name_defs "x" [modScope, funcScope] lmKilledInner =
      .error (.notFound "x") ∧
    annotation_search_scopes [modScope, funcScope] =
      .ok [funcScope, modScope] ∧
    ((lmKilledInner funcScope).any fun loc =>
        loc.lname = "x" ∧ loc.islive = false) = true ∧
    "x" ∉ builtinNamesList := by
  decide

/-! ## Lemmas about frames and the scope engine -/

/-- Unfold `frameGet` over a cons cell. -/
theorem frameGet_cons (p : String × List Nat) (rest : Frame) (k : String) :
    frameGet (p :: rest) k = if p.1 = k then p.2 else frameGet rest k := by
  unfold frameGet
  by_cases h : p.1 = k <;> simp [List.find?, h]

/-- Unfold `frameHas` over a cons cell. -/
theorem frameHas_cons (p : String × List Nat) (rest : Frame) (k : String) :
    frameHas (p :: rest) k = if p.1 = k then true else frameHas rest k := by
  unfold frameHas
  by_cases h : p.1 = k <;> simp [List.find?, h]

/-- An absent name looks up to the empty entry. -/
theorem frameGet_of_not_frameHas (f : Frame) (k : String)
    (h : ¬ frameHas f k = true) : frameGet f k = [] := by
  unfold frameHas at h
  unfold frameGet
  cases hf : f.find? (fun p => p.1 = k) with
  | none => rfl
  | some p =>
    rw [hf] at h
    exact absurd rfl h

/-- The in-place overwrite of `frameSet` at `name`, observed at any
key. -/
theorem frameGet_map_upd (f : Frame) (name : String) (v : List Nat)
    (k : String) :
    frameGet (f.map (fun p => if p.1 = name then (p.1, v) else p)) k =
      if frameHas f k ∧ name = k then v else frameGet f k := by
  induction f with
  | nil => simp [frameGet, frameHas]
  | cons p rest ih =>
    have hfst : (if p.1 = name then (p.1, v) else p).1 = p.1 := by
      split <;> rfl
    rw [List.map_cons, frameGet_cons, hfst, frameHas_cons, frameGet_cons]
    by_cases hp : p.1 = k
    · rw [if_pos hp, if_pos hp]
      by_cases hk : name = k
      · have hpk : p.1 = name := by rw [hp, hk]
        rw [if_pos hpk]
        simp [hp, hk]
      · have hpk : ¬ p.1 = name := by
          rw [hp]
          exact fun hc => hk hc.symm
        rw [if_neg hpk]
        simp [hp, hk]
    · rw [if_neg hp, if_neg hp, ih]
      simp only [hp, if_false]

/-- Appending a fresh entry, observed at any key. -/
theorem frameGet_append_single (f : Frame) (name : String) (v : List Nat)
    (k : String) :
    frameGet (f ++ [(name, v)]) k =
      if frameHas f k then frameGet f k
      else if name = k then v else [] := by
  induction f with
  | nil => by_cases h : name = k <;> simp [frameGet, frameHas, List.find?, h]
  | cons p rest ih =>
    rw [List.cons_append, frameGet_cons, frameHas_cons]
    by_cases h : p.1 = k
    · simp [h, frameGet_cons]
    · simp only [h, if_false]
      rw [ih]
      by_cases hr : frameHas rest k = true
      · simp [hr, frameGet_cons, h]
      · simp [hr]

/-- `frameSet` installs exactly the new entry at its name. -/
theorem frameGet_frameSet_self (f : Frame) (name : String) (v : List Nat) :
    frameGet (frameSet f name v) name = v := by
  unfold frameSet
  split
  · rename_i h
    rw [frameGet_map_upd]
    simp [h]
  · rename_i h
    rw [frameGet_append_single]
    simp [h]

/-- `frameSet` leaves every other name unchanged. -/
theorem frameGet_frameSet_other (f : Frame) (name : String) (v : List Nat)
    (k : String) (h : ¬ name = k) :
    frameGet (frameSet f name v) k = frameGet f k := by
  unfold frameSet
  split
  · rw [frameGet_map_upd]
    simp [h]
  · rename_i hno
    rw [frameGet_append_single]
    by_cases hk : frameHas f k
    · simp [hk]
    · simp [hk, h, frameGet_of_not_frameHas f k (by simpa using hk)]

/-- `chainsSetdefault` only touches the arena and the chains table. -/
theorem chainsSetdefault_fields (st : DUC) (nodeId : Nat) :
    (chainsSetdefault st nodeId).1.definitions = st.definitions ∧
    (chainsSetdefault st nodeId).1.scopes = st.scopes ∧
    (chainsSetdefault st nodeId).1.scope_depths = st.scope_depths ∧
    (chainsSetdefault st nodeId).1.globalsStack = st.globalsStack ∧
    (chainsSetdefault st nodeId).1.localsMap = st.localsMap ∧
    (chainsSetdefault st nodeId).1.warnings = st.warnings ∧
    (chainsSetdefault st nodeId).1.deadcode = st.deadcode := by
  unfold chainsSetdefault
  split <;> exact ⟨rfl, rfl, rfl, rfl, rfl, rfl, rfl⟩

/-- `set_definition` only touches the arena and the definitions stack. -/
theorem set_definition_fields (st : DUC) (name : String)
    (dnodes : List Nat) (index : Int) :
    (set_definition st name dnodes index).scopes = st.scopes ∧
    (set_definition st name dnodes index).scope_depths = st.scope_depths ∧
    (set_definition st name dnodes index).localsMap = st.localsMap ∧
    (set_definition st name dnodes index).warnings = st.warnings ∧
    (set_definition st name dnodes index).deadcode = st.deadcode ∧
    (set_definition st name dnodes index).globalsStack =
      st.globalsStack := by
  unfold set_definition
  split <;> exact ⟨rfl, rfl, rfl, rfl, rfl, rfl⟩

/-- Outside dead code, `set_definition` writes the deduplicated Def set
into the frame at the translated index. -/
theorem set_definition_definitions_eq (st : DUC) (name : String)
    (dnodes : List Nat) (index : Int) (h : st.deadcode = 0) :
    (set_definition st name dnodes index).definitions =
      st.definitions.set (pyIdx st.definitions.length index)
        (frameSet (st.definitions.getD (pyIdx st.definitions.length index)
          []) name (odedup dnodes)) := by
  unfold set_definition
  rw [if_neg (by simp [h])]

/-- `List.getD` after `List.set` at an in-range position. -/
theorem getD_set_self_frame (l : List Frame) (i : Nat) (v : Frame)
    (hi : i < l.length) : (l.set i v).getD i [] = v := by
  rw [List.getD_eq_getElem?_getD, List.getElem?_set_self hi]
  rfl

/-- The loop of `_first_non_comprehension_scope`, characterized: the
result scope sits `i - idx` positions into the walked list. -/
theorem fncsGo_spec (l : List ScopeNode) : ∀ (i idx : Int) (sc : ScopeNode),
    fncsGo l i = some (idx, sc) →
    idx ≤ i ∧ l[(i - idx).toNat]? = some sc := by
  induction l with
  | nil =>
    intro i idx sc h
    cases h
  | cons s rest ih =>
    intro i idx sc h
    unfold fncsGo at h
    by_cases hc : isCompKind s.kind = true
    · rw [if_pos hc] at h
      rcases ih (i - 1) idx sc h with ⟨h1, h2⟩
      constructor
      · omega
      · have hsucc : (i - idx).toNat = (i - 1 - idx).toNat + 1 := by omega
        rw [hsucc]
        simpa using h2
    · rw [if_neg hc] at h
      injection h with h
      injection h with ha hb
      subst ha
      subst hb
      constructor
      · omega
      · simp

/-- `_first_non_comprehension_scope`, characterized: the returned index
is at most `-1` and indexes (in Python's negative convention) the
returned scope inside the scope stack. -/
theorem first_non_comprehension_scope_spec (scopes : List ScopeNode)
    (idx : Int) (sc : ScopeNode)
    (h : first_non_comprehension_scope scopes = some (idx, sc)) :
    idx ≤ -1 ∧
    pyIdx scopes.length idx < scopes.length ∧
    scopes.getD (pyIdx scopes.length idx) ⟨0, .Module⟩ = sc := by
  unfold first_non_comprehension_scope at h
  rcases fncsGo_spec scopes.reverse (-1) idx sc h with ⟨h1, h2⟩
  have hk : ((-1 : Int) - idx).toNat < scopes.length := by
    by_contra hge
    have hge2 : scopes.reverse.length ≤ ((-1 : Int) - idx).toNat := by
      rw [List.length_reverse]
      omega
    rw [List.getElem?_eq_none hge2] at h2
    cases h2
  rw [List.getElem?_reverse (by simpa using hk)] at h2
  have hidx : pyIdx scopes.length idx =
      scopes.length - 1 - ((-1 : Int) - idx).toNat := by
    unfold pyIdx
    rw [if_pos (by omega : idx < 0)]
    omega
  refine ⟨h1, ?_, ?_⟩
  · omega
  · rw [List.getD_eq_getElem?_getD, hidx, h2]
    rfl

/-- Unfold `localsGet` over a cons cell. -/
theorem localsGet_cons (p : Nat × List Nat) (rest : List (Nat × List Nat))
    (k : Nat) :
    localsGet (p :: rest) k = if p.1 = k then p.2 else localsGet rest k := by
  unfold localsGet
  by_cases h : p.1 = k <;> simp [List.find?, h]

/-- The key search of `localsSet`, unfolded over a cons cell. -/
theorem locals_find_cons (p : Nat × List Nat)
    (rest : List (Nat × List Nat)) (k : Nat) :
    (((p :: rest).find? (fun q => q.1 = k)).isSome : Bool) =
      if p.1 = k then true else ((rest.find? (fun q => q.1 = k)).isSome) := by
  by_cases h : p.1 = k <;> simp [List.find?, h]

/-- The in-place overwrite of `localsSet`, observed at any key. -/
theorem localsGet_map_upd (m : List (Nat × List Nat)) (sid : Nat)
    (v : List Nat) (k : Nat) :
    localsGet (m.map (fun p => if p.1 = sid then (p.1, v) else p)) k =
      if ((m.find? (fun q => q.1 = k)).isSome ∧ sid = k) then v
      else localsGet m k := by
  induction m with
  | nil => simp [localsGet]
  | cons p rest ih =>
    have hfst : (if p.1 = sid then (p.1, v) else p).1 = p.1 := by
      split <;> rfl
    rw [List.map_cons, localsGet_cons, hfst, locals_find_cons,
        localsGet_cons]
    by_cases hp : p.1 = k
    · rw [if_pos hp, if_pos hp]
      by_cases hk : sid = k
      · have hpk : p.1 = sid := by rw [hp, hk]
        rw [if_pos hpk]
        simp [hp, hk]
      · have hpk : ¬ p.1 = sid := by
          rw [hp]
          exact fun hc => hk hc.symm
        rw [if_neg hpk]
        simp [hp, hk]
    · rw [if_neg hp, if_neg hp, ih]
      simp only [hp, if_false]

/-- An absent key in the locals table yields the empty list. -/
theorem localsGet_of_find_none (m : List (Nat × List Nat)) (k : Nat)
    (h : ¬ ((m.find? (fun q => q.1 = k)).isSome = true)) :
    localsGet m k = [] := by
  unfold localsGet
  cases hf : m.find? (fun q => q.1 = k) with
  | none => rfl
  | some p =>
    rw [hf] at h
    exact absurd rfl h

/-- Appending a fresh locals entry, observed at any key. -/
theorem localsGet_append_single (m : List (Nat × List Nat)) (sid : Nat)
    (v : List Nat) (k : Nat) :
    localsGet (m ++ [(sid, v)]) k =
      if ((m.find? (fun q => q.1 = k)).isSome : Bool) then localsGet m k
      else if sid = k then v else [] := by
  induction m with
  | nil => by_cases h : sid = k <;> simp [localsGet, List.find?, h]
  | cons p rest ih =>
    rw [List.cons_append, localsGet_cons, locals_find_cons]
    by_cases h : p.1 = k
    · simp [h, localsGet_cons]
    · simp only [h, if_false]
      rw [ih]
      by_cases hr : ((rest.find? (fun q => q.1 = k)).isSome : Bool) = true
      · simp [hr, localsGet_cons, h]
      · simp [hr]

/-- `localsSet` installs exactly the new entry at its key. -/
theorem localsGet_localsSet_self (m : List (Nat × List Nat)) (sid : Nat)
    (v : List Nat) :
    localsGet (localsSet m sid v) sid = v := by
  unfold localsSet
  split
  · rename_i h
    rw [localsGet_map_upd]
    simp [h]
  · rename_i h
    rw [localsGet_append_single]
    simp [h]

/-- The ordered set of a one-element iterable. -/
theorem odedup_single (d : Nat) : odedup [d] = [d] := by
  simp [odedup, ounion, oadd]

/-- `warn` only appends to the warnings channel. -/
theorem warn_fields (st : DUC) (msg : String) :
    (warn st msg).definitions = st.definitions ∧
    (warn st msg).localsMap = st.localsMap ∧
    (warn st msg).warnings = st.warnings ++ [msg] := by
  exact ⟨rfl, rfl, rfl⟩

/-- What the installation block of the walrus `Store` path does, outside
dead code and with the frame index in range: the frame at the index maps
the name to exactly the new Def, the Def is recorded in the locals of
the scope at the same index, and no warning is emitted. -/
theorem visit_Name_store_install_spec (st : DUC) (dnode : Nat)
    (name : String) (index : Int)
    (hdead : st.deadcode = 0)
    (hrange : pyIdx st.definitions.length index < st.definitions.length) :
    frameGet ((visit_Name_store_install st dnode name
        index).definitions.getD (pyIdx st.definitions.length index) [])
      name = [dnode] ∧
    dnode ∈ localsGet (visit_Name_store_install st dnode name
        index).localsMap
      (st.scopes.getD (pyIdx st.scopes.length index) ⟨0, .Module⟩).sid ∧
    (visit_Name_store_install st dnode name index).warnings =
      st.warnings := by
  have hdefs := set_definition_definitions_eq st name [dnode] index hdead
  have hflds := set_definition_fields st name [dnode] index
  have hframe : (set_definition st name [dnode] index).definitions.getD
      (pyIdx st.definitions.length index) [] =
      frameSet (st.definitions.getD (pyIdx st.definitions.length index) [])
        name (odedup [dnode]) := by
    rw [hdefs]
    exact getD_set_self_frame _ _ _ hrange
  have hget : frameGet ((set_definition st name [dnode]
      index).definitions.getD (pyIdx st.definitions.length index) [])
      name = [dnode] := by
    rw [hframe, frameGet_frameSet_self, odedup_single]
  simp only [visit_Name_store_install]
  rw [hflds.1, hflds.2.2.1]
  by_cases hmem : dnode ∈ localsGet st.localsMap
      (st.scopes.getD (pyIdx st.scopes.length index) ⟨0, .Module⟩).sid
  · rw [if_pos hmem]
    exact ⟨hget, by rw [hflds.2.2.1]; exact hmem, hflds.2.2.2.1⟩
  · rw [if_neg hmem]
    refine ⟨hget, ?_, hflds.2.2.2.1⟩
    show dnode ∈ localsGet (localsSet st.localsMap _ _) _
    rw [localsGet_localsSet_self]
    exact List.mem_append_right _ (List.mem_singleton.mpr rfl)

/-- The walrus `Store` path, reduced: when the name is not declared
global and the first non-comprehension scope search succeeds, the path
either warns (comprehension skipped into a class body) or installs. -/
theorem visit_Name_store_named_eq (st : DUC) (nodeId : Nat) (name : String)
    (idx : Int) (sc : ScopeNode)
    (hg : ∀ g ∈ st.globalsStack, name ∉ g)
    (hf : first_non_comprehension_scope st.scopes = some (idx, sc)) :
    visit_Name_store st nodeId name true =
      (if idx < -1 ∧ sc.kind = .ClassDef then
        some (warn (chainsSetdefault st nodeId).1
          ("assignment expression within a comprehension " ++
           "cannot be used in a class body"),
          (chainsSetdefault st nodeId).2)
      else
        some (visit_Name_store_install (chainsSetdefault st nodeId).1
          (chainsSetdefault st nodeId).2 name idx,
          (chainsSetdefault st nodeId).2)) := by
  have hflds := chainsSetdefault_fields st nodeId
  have hany : ((chainsSetdefault st nodeId).1.globalsStack.any
      (fun g => name ∈ g)) = false := by
    rw [hflds.2.2.2.1, List.any_eq_false]
    intro g hgm
    simpa using hg g hgm
  simp only [visit_Name_store]
  rw [hany]
  simp only [Bool.false_eq_true, if_false, if_true]
  rw [hflds.2.1, hf]

/-- Claim C1 (amended): for a walrus target Name outside dead code whose
name is not declared global, the Def is installed in the definition map
and locals of the first enclosing non-comprehension scope (hoisting);
the invalid-binding warning (warn, and do not install) fires exactly
when that scope is a class body *and* at least one comprehension scope
was skipped (computed index below `-1`) — a walrus directly in a class
body installs normally. -/
theorem C1_walrus_hoisting (st : DUC) (nodeId : Nat) (name : String)
    (idx : Int) (sc : ScopeNode)
    (hg : ∀ g ∈ st.globalsStack, name ∉ g)
    (hf : first_non_comprehension_scope st.scopes = some (idx, sc))
    (hdead : st.deadcode = 0)
    (hlen : 0 ≤ (st.definitions.length : Int) + idx) :
    ∀ st' dnode, visit_Name_store st nodeId name true = some (st', dnode) →
      ((idx < -1 ∧ sc.kind = .ClassDef) →
        st'.definitions = st.definitions ∧
        st'.localsMap = st.localsMap ∧
        st'.warnings = st.warnings ++
          ["assignment expression within a comprehension " ++
           "cannot be used in a class body"]) ∧
      (¬ (idx < -1 ∧ sc.kind = .ClassDef) →
        frameGet (st'.definitions.getD (pyIdx st.definitions.length idx) [])
          name = [dnode] ∧
        dnode ∈ localsGet st'.localsMap sc.sid ∧
        st'.warnings = st.warnings) := by
  intro st' dnode hv
  rw [visit_Name_store_named_eq st nodeId name idx sc hg hf] at hv
  have hflds := chainsSetdefault_fields st nodeId
  rcases first_non_comprehension_scope_spec st.scopes idx sc hf with
    ⟨hidx1, hidx2, hsc⟩
  by_cases hcls : idx < -1 ∧ sc.kind = .ClassDef
  · rw [if_pos hcls] at hv
    injection hv with hv
    have hst : st' = warn (chainsSetdefault st nodeId).1
        ("assignment expression within a comprehension " ++
         "cannot be used in a class body") :=
      (congrArg Prod.fst hv).symm
    refine ⟨fun _ => ?_, fun hn => absurd hcls hn⟩
    rw [hst]
    exact ⟨by rw [(warn_fields _ _).1, hflds.1],
           by rw [(warn_fields _ _).2.1, hflds.2.2.2.2.1],
           by rw [(warn_fields _ _).2.2, hflds.2.2.2.2.2.1]⟩
  · rw [if_neg hcls] at hv
    injection hv with hv
    have hst : st' = visit_Name_store_install (chainsSetdefault st
        nodeId).1 (chainsSetdefault st nodeId).2 name idx :=
      (congrArg Prod.fst hv).symm
    have hdn : dnode = (chainsSetdefault st nodeId).2 :=
      (congrArg Prod.snd hv).symm
    refine ⟨fun hy => absurd hy hcls, fun _ => ?_⟩
    have hrange : pyIdx (chainsSetdefault st
        nodeId).1.definitions.length idx <
        (chainsSetdefault st nodeId).1.definitions.length := by
      rw [hflds.1]
      unfold pyIdx
      rw [if_pos (by omega : idx < 0)]
      omega
    have hspec := visit_Name_store_install_spec
      (chainsSetdefault st nodeId).1 (chainsSetdefault st nodeId).2 name
      idx (by rw [hflds.2.2.2.2.2.2]; exact hdead) hrange
    rw [hst, hdn]
    refine ⟨?_, ?_, ?_⟩
    · have h1 := hspec.1
      rw [hflds.1] at h1
      exact h1
    · have h2 := hspec.2.1
      rw [hflds.2.1] at h2
      rw [hsc] at h2
      exact h2
    · have h3 := hspec.2.2
      rw [hflds.2.2.2.2.2.1] at h3
      exact h3

/-- Witness for C1 (amended): the walrus target in a comprehension at
module level installs into the module scope without warning; a walrus
in a comprehension inside a class body warns. -/
theorem C1_walrus_hoisting_witness :
    (visit_Name_store stW1 7 "y" true).map
      (fun p => p.1.warnings) = some [] ∧
    (visit_Name_store stWC 8 "y" true).map
      (fun p => p.1.warnings) =
      some ["assignment expression within a comprehension " ++
            "cannot be used in a class body"] := by
  constructor
  · cases hv : visit_Name_store stW1 7 "y" true with
    | none => exact absurd hv (by decide)
    | some p =>
      have h := (C1_walrus_hoisting stW1 7 "y" (-2) ⟨0, .Module⟩
        (by intro g hgm; fin_cases hgm <;> decide) (by decide) rfl
        (by decide) p.1 p.2 (by rw [hv])).2 (by decide)
      rw [Option.map]
      rw [h.2.2]
      rfl
  · cases hv : visit_Name_store stWC 8 "y" true with
    | none => exact absurd hv (by decide)
    | some p =>
      have h := (C1_walrus_hoisting stWC 8 "y" (-2) ⟨1, .ClassDef⟩
        (by intro g hgm; fin_cases hgm <;> decide) (by decide) rfl
        (by decide) p.1 p.2 (by rw [hv])).1 (by decide)
      rw [Option.map]
      rw [h.2.2]
      rfl

/-- Counterexample to C1 as stated: a walrus directly inside a class
body (`class C: (x := 1)`, no comprehension in between).  The first
enclosing non-comprehension scope is the class body, yet the analyzer
emits no warning and installs the Def in the class frame and the class
locals, where the claim requires a warning and no installation. -/
theorem C1_counterexample :
    first_non_comprehension_scope stC1.scopes =
      some (-1, ⟨1, .ClassDef⟩) ∧
    (visit_Name_store stC1 100 "x" true).map
      (fun p => (p.1.warnings,
                 frameGet (p.1.definitions.getD 1 []) "x",
                 localsGet p.1.localsMap 1)) =
      some ([], [0], [0]) := by
  decide

/-! ## The kill loop of `set_definition`, characterized pointwise -/

/-- `setLive` at the written index. -/
theorem setLive_get_self (ar : List DefRec) (i : Nat) (b : Bool) :
    (setLive ar i b)[i]? =
      (ar[i]?).map (fun r => ⟨r.node, r.users, b⟩) := by
  unfold setLive
  cases h : ar[i]? with
  | none =>
    rw [h]
    rfl
  | some d =>
    have hi : i < ar.length := by
      by_contra hge
      rw [List.getElem?_eq_none (by omega)] at h
      cases h
    rw [List.getElem?_set_self hi]
    rfl

/-- `setLive` away from the written index. -/
theorem setLive_get_other (ar : List DefRec) (i : Nat) (b : Bool) (j : Nat)
    (h : ¬ j = i) : (setLive ar i b)[j]? = ar[j]? := by
  unfold setLive
  cases ar[i]? with
  | none => rfl
  | some d => exact List.getElem?_set_ne (fun hc => h hc.symm)

/-- Wrapped nodes determine the `isinstance` test. -/
theorem isAstDef_eq_of_node (ar ar' : List DefRec) (j : Nat)
    (h : (ar'[j]?).map (fun r => r.node) = (ar[j]?).map (fun r => r.node)) :
    isAstDef ar' j = isAstDef ar j := by
  unfold isAstDef
  cases h1 : ar'[j]? with
  | none =>
    cases h2 : ar[j]? with
    | none => rfl
    | some r =>
      rw [h1, h2] at h
      cases h
  | some r =>
    cases h2 : ar[j]? with
    | none =>
      rw [h1, h2] at h
      cases h
    | some r2 =>
      rw [h1, h2] at h
      simp only [Option.map] at h
      have hr : r.node = r2.node := by injection h
      show r.node.isAst = r2.node.isAst
      rw [hr]

/-- One `killStep`, observed at any arena position. -/
theorem killStep_get (name : String) (dnodes : List Nat)
    (earlier : List Frame) (ar : List DefRec) (d j : Nat) :
    (killStep name dnodes earlier ar d)[j]? =
      if j = d ∧ isAstDef ar j = true ∧ j ∉ dnodes ∧
         ¬ ((earlier.any (fun f => decide (j ∈ frameGet f name))) = true)
      then (ar[j]?).map (fun r => ⟨r.node, r.users, false⟩)
      else ar[j]? := by
  unfold killStep
  split
  · rename_i hna
    rw [if_neg ?_]
    rintro ⟨hjd, hast, _, _⟩
    subst hjd
    rw [hna] at hast
    cases hast
  · rename_i hna
    split
    · rename_i hmem
      rw [if_neg ?_]
      rintro ⟨hjd, _, hnd, hne⟩
      subst hjd
      rcases hmem with hm | hm
      · exact hnd hm
      · exact hne hm
    · rename_i hnm
      by_cases hjd : j = d
      · subst hjd
        rw [if_pos ⟨rfl, by simpa using hna, fun hc => hnm (Or.inl hc),
          fun hc => hnm (Or.inr hc)⟩]
        exact setLive_get_self ar j false
      · rw [if_neg (fun hc => hjd hc.1)]
        exact setLive_get_other ar d false j hjd

/-- The whole kill loop, observed at any arena position: an entry is
killed exactly when it is a prior Def for the name, wraps an AST node,
is not among the new Defs, and does not occur under the name in any
earlier frame of the stack slice `self._definitions[:index]`. -/
theorem killFold_get (name : String) (dnodes : List Nat)
    (earlier : List Frame) (prior : List Nat) (ar : List DefRec) (j : Nat) :
    (prior.foldl (killStep name dnodes earlier) ar)[j]? =
      if j ∈ prior ∧ isAstDef ar j = true ∧ j ∉ dnodes ∧
         ¬ ((earlier.any (fun f => decide (j ∈ frameGet f name))) = true)
      then (ar[j]?).map (fun r => ⟨r.node, r.users, false⟩)
      else ar[j]? := by
  induction prior generalizing ar with
  | nil => simp
  | cons d rest ih =>
    rw [List.foldl_cons, ih (killStep name dnodes earlier ar d)]
    have hni : isAstDef (killStep name dnodes earlier ar d) j =
        isAstDef ar j :=
      isAstDef_eq_of_node _ _ _ (killStep_node name dnodes earlier ar d j)
    rw [hni, killStep_get name dnodes earlier ar d j]
    by_cases hC : isAstDef ar j = true ∧ j ∉ dnodes ∧
        ¬ ((earlier.any (fun f => decide (j ∈ frameGet f name))) = true)
    · by_cases hjd : j = d
      · have hin : j = d ∧ isAstDef ar j = true ∧ j ∉ dnodes ∧
            ¬ ((earlier.any (fun f => decide (j ∈ frameGet f name)))
              = true) := ⟨hjd, hC.1, hC.2.1, hC.2.2⟩
        have hout : j ∈ d :: rest ∧ isAstDef ar j = true ∧ j ∉ dnodes ∧
            ¬ ((earlier.any (fun f => decide (j ∈ frameGet f name)))
              = true) :=
          ⟨by rw [hjd]; exact List.mem_cons_self d rest, hC.1, hC.2.1,
           hC.2.2⟩
        rw [if_pos hin, if_pos hout]
        by_cases hjr : j ∈ rest
        · have hl : j ∈ rest ∧ isAstDef ar j = true ∧ j ∉ dnodes ∧
              ¬ ((earlier.any (fun f => decide (j ∈ frameGet f name)))
                = true) := ⟨hjr, hC.1, hC.2.1, hC.2.2⟩
          rw [if_pos hl]
          cases ar[j]? <;> rfl
        · have hl : ¬ (j ∈ rest ∧ isAstDef ar j = true ∧ j ∉ dnodes ∧
              ¬ ((earlier.any (fun f => decide (j ∈ frameGet f name)))
                = true)) := fun hc => hjr hc.1
          rw [if_neg hl]
      · have hin : ¬ (j = d ∧ isAstDef ar j = true ∧ j ∉ dnodes ∧
            ¬ ((earlier.any (fun f => decide (j ∈ frameGet f name)))
              = true)) := fun hc => hjd hc.1
        rw [if_neg hin]
        by_cases hjr : j ∈ rest
        · have hl : j ∈ rest ∧ isAstDef ar j = true ∧ j ∉ dnodes ∧
              ¬ ((earlier.any (fun f => decide (j ∈ frameGet f name)))
                = true) := ⟨hjr, hC.1, hC.2.1, hC.2.2⟩
          have hout : j ∈ d :: rest ∧ isAstDef ar j = true ∧
              j ∉ dnodes ∧
              ¬ ((earlier.any (fun f => decide (j ∈ frameGet f name)))
                = true) :=
            ⟨List.mem_cons_of_mem d hjr, hC.1, hC.2.1, hC.2.2⟩
          rw [if_pos hl, if_pos hout]
        · have hl : ¬ (j ∈ rest ∧ isAstDef ar j = true ∧ j ∉ dnodes ∧
              ¬ ((earlier.any (fun f => decide (j ∈ frameGet f name)))
                = true)) := fun hc => hjr hc.1
          have hout : ¬ (j ∈ d :: rest ∧ isAstDef ar j = true ∧
              j ∉ dnodes ∧
              ¬ ((earlier.any (fun f => decide (j ∈ frameGet f name)))
                = true)) :=
            fun hc => (List.mem_cons.mp hc.1).elim hjd hjr
          rw [if_neg hl, if_neg hout]
    · have hC' : ∀ (P : Prop), ¬ (P ∧ isAstDef ar j = true ∧ j ∉ dnodes ∧
          ¬ ((earlier.any (fun f => decide (j ∈ frameGet f name)))
            = true)) :=
        fun P hc => hC ⟨hc.2.1, hc.2.2.1, hc.2.2.2⟩
      rw [if_neg (hC' _), if_neg (hC' _), if_neg (hC' _)]

/-- Claim C2 (amended): `set_definition(name, defs, index)` replaces
`definitions[index][name]` with the ordered set of `defs`; every prior
Def recorded there that wraps an AST node is marked `live=false` unless
it is a member of `defs` or appears under the same name in some frame of
`self._definitions[:index]` — any earlier frame of the stack, including
frames of enclosing scopes, not only frames of the same scope (and
builtin-sentinel Defs are never marked).  When the dead-code counter is
positive, the call is a no-op.  In particular, for `x=1\nx=2\nuse(x)`
the first `x` Def ends non-live and `use(x)` resolves only to the
second. -/
theorem C2_set_definition_characterization (st : DUC) (name : String)
    (dnodes : List Nat) (index : Int) :
    (st.deadcode ≠ 0 → set_definition st name dnodes index = st) ∧
    (st.deadcode = 0 →
      ((set_definition st name dnodes index).definitions =
        st.definitions.set (pyIdx st.definitions.length index)
          (frameSet (st.definitions.getD
            (pyIdx st.definitions.length index) []) name
            (odedup dnodes)) ∧
       ∀ j : Nat,
        ((set_definition st name dnodes index).arena)[j]? =
          (if j ∈ frameGet (st.definitions.getD
                (pyIdx st.definitions.length index) []) name ∧
              isAstDef st.arena j = true ∧ j ∉ odedup dnodes ∧
              ¬ (((st.definitions.take
                    (pyIdx st.definitions.length index)).any
                  (fun f => decide (j ∈ frameGet f name))) = true)
           then (st.arena[j]?).map
             (fun r => ⟨r.node, r.users, false⟩)
           else st.arena[j]?))) ∧
    (c2res.2 = [c2base + 3] ∧
     (c2res.1.arena.getD (c2base + 1) ⟨.ast 0, [], true⟩).islive = false ∧
     (c2res.1.arena.getD (c2base + 3) ⟨.ast 0, [], true⟩).islive =
       true) := by
  refine ⟨?_, ?_, ?_⟩
  · intro h
    unfold set_definition
    rw [if_pos h]
  · intro h
    refine ⟨set_definition_definitions_eq st name dnodes index h, ?_⟩
    intro j
    unfold set_definition
    rw [if_neg (by simp [h])]
    exact killFold_get name (odedup dnodes)
      (st.definitions.take (pyIdx st.definitions.length index))
      (frameGet (st.definitions.getD
        (pyIdx st.definitions.length index) []) name) st.arena j
  · set_option maxRecDepth 10000 in decide

/-- Witness for C2 (amended) on `stC2`: the frame entry is replaced and
the prior Def handle 0 — present under `x` in the enclosing module
frame — stays live, as does the builtin-backed handle 1. -/
theorem C2_set_definition_characterization_witness :
    (set_definition stC2 "x" [2] (-1)).definitions =
      [[("x", [0])], [("x", [2])]] ∧
    ((set_definition stC2 "x" [2] (-1)).arena)[0]? =
      some ⟨.ast 1, [], true⟩ ∧
    ((set_definition stC2 "x" [2] (-1)).arena)[1]? =
      some ⟨.sentinel "print", [], true⟩ := by
  have h := (C2_set_definition_characterization stC2 "x" [2] (-1)).2.1 rfl
  refine ⟨?_, ?_, ?_⟩
  · rw [h.1]
    decide
  · rw [h.2 0]
    decide
  · rw [h.2 1]
    decide

/-- Counterexample to C2 as stated: in `stC2` the prior Defs 0 and 1 for
`x` are not members of the new Def set, and no *earlier frame of the
same scope* exists (the current function scope owns only the top frame),
so the claim requires both to end `live=false`; the code leaves both
live — handle 0 because it also occurs under `x` in the enclosing
module scope's frame, handle 1 because it wraps a builtin sentinel. -/
theorem C2_counterexample :
    ((set_definition stC2 "x" [2] (-1)).arena.map (fun r => r.islive)) =
      [true, true, true] ∧
    sameScopeEarlierFrames stC2 = [] ∧
    frameGet (stC2.definitions.getD 1 []) "x" = [0, 1] ∧
    (0 ∉ odedup [2] ∧ 1 ∉ odedup [2]) ∧
    stC2.deadcode = 0 := by
  decide

/-! ## The `visit_If` merge, reduced to a pure frame computation -/

/-- The last position of a nonempty list, via `getD`. -/
theorem getD_last_eq_getLastD (l : List Frame) :
    l.getD (l.length - 1) [] = l.getLastD [] := by
  rw [List.getD_eq_getElem?_getD, List.getLastD_eq_getLast?,
      List.getLast?_eq_getElem?]

/-- `set_definition` preserves the height of the definitions stack. -/
theorem set_definition_len (st : DUC) (name : String) (ds : List Nat)
    (i : Int) :
    (set_definition st name ds i).definitions.length =
      st.definitions.length := by
  unfold set_definition
  split
  · rfl
  · exact List.length_set _ _ _

/-- `extend_definition` only touches the definitions stack. -/
theorem extend_definition_fields (st : DUC) (name : String)
    (ds : List Nat) :
    (extend_definition st name ds).deadcode = st.deadcode ∧
    (extend_definition st name ds).definitions.length =
      st.definitions.length := by
  unfold extend_definition
  split
  · exact ⟨rfl, rfl⟩
  · exact ⟨rfl, List.length_set _ _ _⟩

/-- What `set_definition` at the top frame does to the top frame. -/
theorem set_definition_top (st : DUC) (name : String) (ds : List Nat)
    (hdead : st.deadcode = 0) (hne : st.definitions ≠ []) :
    (set_definition st name ds (-1)).definitions.getLastD [] =
      frameSet (st.definitions.getLastD []) name (odedup ds) := by
  rw [set_definition_definitions_eq st name ds (-1) hdead]
  have hlen : 0 < st.definitions.length := List.length_pos.mpr hne
  have hidx : pyIdx st.definitions.length (-1) =
      st.definitions.length - 1 := by
    unfold pyIdx
    rw [if_pos (by omega)]
    omega
  rw [hidx, List.getLastD_eq_getLast?, List.getLast?_eq_getElem?,
      List.length_set, List.getElem?_set_self (by omega),
      getD_last_eq_getLastD]
  rfl

/-- What `extend_definition` does to the top frame. -/
theorem extend_definition_top (st : DUC) (name : String) (ds : List Nat)
    (hdead : st.deadcode = 0) (hne : st.definitions ≠ []) :
    (extend_definition st name ds).definitions.getLastD [] =
      frameSet (st.definitions.getLastD []) name
        (ounion (frameGet (st.definitions.getLastD []) name) ds) := by
  unfold extend_definition
  rw [if_neg (by simp [hdead])]
  have hlen : 0 < st.definitions.length := List.length_pos.mpr hne
  show (st.definitions.set (st.definitions.length - 1)
      (add_to_definition (st.definitions.getD
        (st.definitions.length - 1) []) name ds)).getLastD [] = _
  rw [List.getLastD_eq_getLast?, List.getLast?_eq_getElem?,
      List.length_set, List.getElem?_set_self (by omega),
      getD_last_eq_getLastD]
  rfl

/-- The first `visit_If` merge loop, reduced to `mergeStep1` on the top
frame (with the dead-code flag and stack height preserved). -/
theorem if_merge_fold1 (orelse : Frame) (body : Frame) :
    ∀ (st : DUC), st.deadcode = 0 → st.definitions ≠ [] →
    ((body.foldl (fun s p =>
        if frameHas orelse p.1 then
          set_definition s p.1 (p.2 ++ frameGet orelse p.1) (-1)
        else extend_definition s p.1 p.2) st).definitions.getLastD [] =
      body.foldl (mergeStep1 orelse) (st.definitions.getLastD []) ∧
     (body.foldl (fun s p =>
        if frameHas orelse p.1 then
          set_definition s p.1 (p.2 ++ frameGet orelse p.1) (-1)
        else extend_definition s p.1 p.2) st).deadcode = 0 ∧
     (body.foldl (fun s p =>
        if frameHas orelse p.1 then
          set_definition s p.1 (p.2 ++ frameGet orelse p.1) (-1)
        else extend_definition s p.1 p.2) st).definitions ≠ []) := by
  induction body with
  | nil => exact fun st h1 h2 => ⟨rfl, h1, h2⟩
  | cons p rest ih =>
    intro st h1 h2
    rw [List.foldl_cons, List.foldl_cons]
    by_cases hh : frameHas orelse p.1 = true
    · rw [if_pos hh]
      have hd' : (set_definition st p.1 (p.2 ++ frameGet orelse p.1)
          (-1)).deadcode = 0 := by
        rw [(set_definition_fields st p.1 _ (-1)).2.2.2.2.1]
        exact h1
      have hn' : (set_definition st p.1 (p.2 ++ frameGet orelse p.1)
          (-1)).definitions ≠ [] := by
        intro hc
        apply h2
        have := set_definition_len st p.1 (p.2 ++ frameGet orelse p.1) (-1)
        rw [hc] at this
        exact List.eq_nil_of_length_eq_zero this.symm
      obtain ⟨ha, hb, hc⟩ := ih _ hd' hn'
      refine ⟨?_, hb, hc⟩
      rw [ha, set_definition_top st p.1 _ h1 h2]
      have : mergeStep1 orelse (st.definitions.getLastD []) p =
          frameSet (st.definitions.getLastD []) p.1
            (odedup (p.2 ++ frameGet orelse p.1)) := by
        unfold mergeStep1
        rw [if_pos hh]
      rw [this]
    · rw [if_neg hh]
      have hd' : (extend_definition st p.1 p.2).deadcode = 0 := by
        rw [(extend_definition_fields st p.1 p.2).1]
        exact h1
      have hn' : (extend_definition st p.1 p.2).definitions ≠ [] := by
        intro hc
        apply h2
        have := (extend_definition_fields st p.1 p.2).2
        rw [hc] at this
        exact List.eq_nil_of_length_eq_zero this.symm
      obtain ⟨ha, hb, hc⟩ := ih _ hd' hn'
      refine ⟨?_, hb, hc⟩
      rw [ha, extend_definition_top st p.1 p.2 h1 h2]
      have : mergeStep1 orelse (st.definitions.getLastD []) p =
          frameSet (st.definitions.getLastD []) p.1
            (ounion (frameGet (st.definitions.getLastD []) p.1) p.2) := by
        unfold mergeStep1
        rw [if_neg hh]
      rw [this]

/-- The second `visit_If` merge loop, reduced to `mergeStep2` on the top
frame. -/
theorem if_merge_fold2 (body : Frame) (orelse : Frame) :
    ∀ (st : DUC), st.deadcode = 0 → st.definitions ≠ [] →
    (orelse.foldl (fun s p =>
        if frameHas body p.1 then s
        else extend_definition s p.1 p.2) st).definitions.getLastD [] =
      orelse.foldl (mergeStep2 body) (st.definitions.getLastD []) := by
  induction orelse with
  | nil => exact fun st _ _ => rfl
  | cons p rest ih =>
    intro st h1 h2
    rw [List.foldl_cons, List.foldl_cons]
    by_cases hh : frameHas body p.1 = true
    · rw [if_pos hh]
      have : mergeStep2 body (st.definitions.getLastD []) p =
          st.definitions.getLastD [] := by
        unfold mergeStep2
        rw [if_pos hh]
      rw [this]
      exact ih st h1 h2
    · rw [if_neg hh]
      have hd' : (extend_definition st p.1 p.2).deadcode = 0 := by
        rw [(extend_definition_fields st p.1 p.2).1]
        exact h1
      have hn' : (extend_definition st p.1 p.2).definitions ≠ [] := by
        intro hc
        apply h2
        have := (extend_definition_fields st p.1 p.2).2
        rw [hc] at this
        exact List.eq_nil_of_length_eq_zero this.symm
      rw [ih _ hd' hn', extend_definition_top st p.1 p.2 h1 h2]
      have : mergeStep2 body (st.definitions.getLastD []) p =
          frameSet (st.definitions.getLastD []) p.1
            (ounion (frameGet (st.definitions.getLastD []) p.1) p.2) := by
        unfold mergeStep2
        rw [if_neg hh]
      rw [this]

/-- The top frame after the whole `visit_If` merge. -/
theorem visit_If_merge_top (st : DUC) (body orelse : Frame)
    (hdead : st.deadcode = 0) (hne : st.definitions ≠ []) :
    (visit_If_merge st body orelse).definitions.getLastD [] =
      orelse.foldl (mergeStep2 body)
        (body.foldl (mergeStep1 orelse)
          (st.definitions.getLastD [])) := by
  unfold visit_If_merge
  obtain ⟨ha, hb, hc⟩ := if_merge_fold1 orelse body st hdead hne
  rw [if_merge_fold2 body orelse _ hb hc, ha]

/-- A name absent from the key list of a frame is not `in` it. -/
theorem frameHas_eq_false_of_not_mem (rest : Frame) (k : String)
    (h : k ∉ rest.map Prod.fst) : frameHas rest k = false := by
  induction rest with
  | nil => rfl
  | cons q tl ih =>
    rw [frameHas_cons]
    rw [List.map_cons] at h
    have h1 : ¬ q.1 = k := by
      intro hc
      exact h (List.mem_cons.mpr (Or.inl hc.symm))
    rw [if_neg h1]
    exact ih (fun hm => h (List.mem_cons.mpr (Or.inr hm)))

/-- The first merge step observed at its own name. -/
theorem mergeStep1_get_self (orelse f : Frame) (p : String × List Nat) :
    frameGet (mergeStep1 orelse f p) p.1 =
      if frameHas orelse p.1 then odedup (p.2 ++ frameGet orelse p.1)
      else ounion (frameGet f p.1) p.2 := by
  unfold mergeStep1
  split <;> rw [frameGet_frameSet_self]

/-- The first merge step leaves other names alone. -/
theorem mergeStep1_get_other (orelse f : Frame) (p : String × List Nat)
    (k : String) (h : ¬ p.1 = k) :
    frameGet (mergeStep1 orelse f p) k = frameGet f k := by
  unfold mergeStep1
  split <;> rw [frameGet_frameSet_other _ _ _ _ h]

/-- The second merge step observed at its own name. -/
theorem mergeStep2_get_self (body f : Frame) (p : String × List Nat) :
    frameGet (mergeStep2 body f p) p.1 =
      if frameHas body p.1 then frameGet f p.1
      else ounion (frameGet f p.1) p.2 := by
  unfold mergeStep2
  split
  · rfl
  · rw [frameGet_frameSet_self]

/-- The second merge step leaves other names alone. -/
theorem mergeStep2_get_other (body f : Frame) (p : String × List Nat)
    (k : String) (h : ¬ p.1 = k) :
    frameGet (mergeStep2 body f p) k = frameGet f k := by
  unfold mergeStep2
  split
  · rfl
  · rw [frameGet_frameSet_other _ _ _ _ h]

/-- Pointwise result of folding the first merge loop over a duplicate-free
body frame. -/
theorem foldl_mergeStep1_get (orelse : Frame) (body : Frame) :
    ∀ (f : Frame), (body.map Prod.fst).Nodup → ∀ (k : String),
    frameGet (body.foldl (mergeStep1 orelse) f) k =
      if frameHas body k then
        (if frameHas orelse k then
          odedup (frameGet body k ++ frameGet orelse k)
         else ounion (frameGet f k) (frameGet body k))
      else frameGet f k := by
  induction body with
  | nil => intro f _ k; rfl
  | cons p rest ih =>
    intro f hnd k
    rw [List.foldl_cons]
    rw [List.map_cons, List.nodup_cons] at hnd
    obtain ⟨hnotin, hrest⟩ := hnd
    by_cases hp : p.1 = k
    · subst hp
      have hhasr : frameHas rest p.1 = false :=
        frameHas_eq_false_of_not_mem rest p.1 hnotin
      rw [ih _ hrest p.1, if_neg (by simp [hhasr]), mergeStep1_get_self]
      have h1 : frameHas (p :: rest) p.1 = true := by
        rw [frameHas_cons, if_pos rfl]
      have h2 : frameGet (p :: rest) p.1 = p.2 := by
        rw [frameGet_cons, if_pos rfl]
      rw [h1, if_pos rfl, h2]
    · have h1 : frameHas (p :: rest) k = frameHas rest k := by
        rw [frameHas_cons, if_neg hp]
      have h2 : frameGet (p :: rest) k = frameGet rest k := by
        rw [frameGet_cons, if_neg hp]
      rw [ih _ hrest k, mergeStep1_get_other orelse f p k hp, h1, h2]

/-- Pointwise result of folding the second merge loop over a
duplicate-free orelse frame. -/
theorem foldl_mergeStep2_get (body : Frame) (orelse : Frame) :
    ∀ (f : Frame), (orelse.map Prod.fst).Nodup → ∀ (k : String),
    frameGet (orelse.foldl (mergeStep2 body) f) k =
      if frameHas orelse k then
        (if frameHas body k then frameGet f k
         else ounion (frameGet f k) (frameGet orelse k))
      else frameGet f k := by
  induction orelse with
  | nil => intro f _ k; rfl
  | cons p rest ih =>
    intro f hnd k
    rw [List.foldl_cons]
    rw [List.map_cons, List.nodup_cons] at hnd
    obtain ⟨hnotin, hrest⟩ := hnd
    by_cases hp : p.1 = k
    · subst hp
      have hhasr : frameHas rest p.1 = false :=
        frameHas_eq_false_of_not_mem rest p.1 hnotin
      rw [ih _ hrest p.1, if_neg (by simp [hhasr]), mergeStep2_get_self]
      have h1 : frameHas (p :: rest) p.1 = true := by
        rw [frameHas_cons, if_pos rfl]
      have h2 : frameGet (p :: rest) p.1 = p.2 := by
        rw [frameGet_cons, if_pos rfl]
      rw [h1, if_pos rfl, h2]
    · have h1 : frameHas (p :: rest) k = frameHas rest k := by
        rw [frameHas_cons, if_neg hp]
      have h2 : frameGet (p :: rest) k = frameGet rest k := by
        rw [frameGet_cons, if_neg hp]
      rw [ih _ hrest k, mergeStep2_get_other body f p k hp, h1, h2]

/-- C3: after the `visit_If` merge of two branch frames into a live
state, a name defined in both branches maps in the enclosing top frame to
the ordered union of the two branch Def sets; a name defined in only one
branch maps to the extension of its pre-existing entry by that branch's
Defs; any other name is untouched.  Moreover for the scenario
`if cond: x=1 / else: x=2 / print(x)` the read of `x` resolves to both
assignment Defs and both keep `islive = true`. -/
theorem C3_if_merge :
    (∀ (st : DUC) (body orelse : Frame), st.deadcode = 0 →
      st.definitions ≠ [] → (body.map Prod.fst).Nodup →
      (orelse.map Prod.fst).Nodup → ∀ (k : String),
      frameGet ((visit_If_merge st body orelse).definitions.getLastD []) k =
        if frameHas body k then
          (if frameHas orelse k then
            odedup (frameGet body k ++ frameGet orelse k)
           else
            ounion (frameGet (st.definitions.getLastD []) k)
              (frameGet body k))
        else if frameHas orelse k then
          ounion (frameGet (st.definitions.getLastD []) k)
            (frameGet orelse k)
        else frameGet (st.definitions.getLastD []) k) ∧
    (c3res.2 = [c3base + 3, c3base + 5] ∧
     (c3res.1.arena.getD (c3base + 3) ⟨.ast 0, [], true⟩).islive = true ∧
     (c3res.1.arena.getD (c3base + 5) ⟨.ast 0, [], true⟩).islive = true) := by
  constructor
  · intro st body orelse hdead hne hnb hno k
    rw [visit_If_merge_top st body orelse hdead hne,
        foldl_mergeStep2_get body orelse _ hno k,
        foldl_mergeStep1_get orelse body _ hnb k]
    by_cases hb : frameHas body k = true <;>
      by_cases ho : frameHas orelse k = true <;>
      simp [hb, ho]
  · set_option maxRecDepth 10000 in decide

/-- Concrete instance of the C3 merge characterization: `x` is defined in
both branches, `y` only in the orelse branch. -/
theorem C3_if_merge_witness :
    frameGet ((visit_If_merge c3wSt [("x", [1])]
        [("x", [2]), ("y", [3])]).definitions.getLastD []) "y" =
      (if frameHas [("x", [1])] "y" then
        (if frameHas [("x", [2]), ("y", [3])] "y" then
          odedup (frameGet [("x", [1])] "y" ++
            frameGet [("x", [2]), ("y", [3])] "y")
         else
          ounion (frameGet (c3wSt.definitions.getLastD []) "y")
            (frameGet [("x", [1])] "y"))
      else if frameHas [("x", [2]), ("y", [3])] "y" then
        ounion (frameGet (c3wSt.definitions.getLastD []) "y")
          (frameGet [("x", [2]), ("y", [3])] "y")
      else frameGet (c3wSt.definitions.getLastD []) "y") :=
  C3_if_merge.1 c3wSt [("x", [1])] [("x", [2]), ("y", [3])]
    (by decide) (by decide) (by decide) (by decide) "y"

end Beniget
